import Mathlib

/-!
Verification development for the AnchorLab cognitive core: a shallow
embedding, in Lean 4, of the decaying memory store
(`memory_system_implementation.py`), the personality mixer
(`personality_mixer.py`) and the autonomous-agent controller
(`autonomous_agent_integration.py`), together with theorems settling the
stated behavioural properties.

Modelling conventions:
- Python `float` values are embedded as exact rationals `ℚ`; timestamps
  are rationals measured in days (memory system) or seconds (agents), so
  `timedelta.days` becomes `Int.floor` of the day difference.
- Python `dict`s are embedded as insertion-ordered association lists
  (CPython 3.7+ iteration order); keys are unique in every state reachable
  through the embedded operations.
- A node id `"mem_{ms}"` is embedded as the integer millisecond count
  `ms : ℕ` (the string former is injective in `ms`).
- In-place mutation of an object held in a dict is embedded as a pointwise
  update of the association list at that object's key.
-/

namespace AnchorLab

/-! ## Memory system (`memory_system_implementation.py`) -/

/-- Base decay rates by memory type, from `MemoryNode._calculate_decay_rate`;
`base_rates.get(self.memory_type, 0.95)` gives 0.95 for unknown types. -/
def baseRate (memory_type : String) : ℚ :=
  if memory_type = "interaction" then 0.95
  else if memory_type = "pattern" then 0.98
  else if memory_type = "preference" then 0.99
  else if memory_type = "crisis" then 0.999
  else 0.95

/-- A memory node, from `MemoryNode.__init__`. -/
structure MemoryNode where
  id : ℕ
  content : String
  memory_type : String
  importance : ℚ
  created_at : ℚ
  last_accessed : ℚ
  access_count : ℕ
  anchor_context : List (String × ℚ)
  decay_rate : ℚ
deriving DecidableEq

/-- `_calculate_decay_rate`: base rate for the type plus `importance * 0.05`. -/
def calculateDecayRate (memory_type : String) (importance : ℚ) : ℚ :=
  baseRate memory_type + importance * 0.05

/-- `MemoryNode.__init__` at creation instant `now` (in days): access count 1,
both timestamps `now`, decay rate computed once from type and importance. -/
def MemoryNode.init (id : ℕ) (content : String) (memory_type : String)
    (importance : ℚ) (anchor_context : List (String × ℚ)) (now : ℚ) : MemoryNode :=
  { id := id
    content := content
    memory_type := memory_type
    importance := importance
    created_at := now
    last_accessed := now
    access_count := 1
    anchor_context := anchor_context
    decay_rate := calculateDecayRate memory_type importance }

/-- `MemoryNode.access`: bump `last_accessed` to `now`, increment the access
count, raise importance by 0.01 capped at 1.0. -/
def MemoryNode.access (n : MemoryNode) (now : ℚ) : MemoryNode :=
  { n with
    last_accessed := now
    access_count := n.access_count + 1
    importance := min 1 (n.importance + 0.01) }

/-- `MemoryNode.get_current_strength` at instant `now` (days):
`importance * decay_rate ** days_since_access`, where
`days_since_access = (now - last_accessed).days` is the floored day
difference (an integer, negative when `last_accessed` is in the future). -/
def MemoryNode.getCurrentStrength (n : MemoryNode) (now : ℚ) : ℚ :=
  n.importance * n.decay_rate ^ (⌊now - n.last_accessed⌋ : ℤ)

/-- Strength of a node that was last accessed a whole number `d` of days ago;
`getCurrentStrength` at `now = last_accessed + d`. -/
def strengthAtDays (n : MemoryNode) (d : ℕ) : ℚ :=
  n.importance * n.decay_rate ^ d

/-- The record produced by `MemoryNode.to_dict` plus the `relevance_score`
entry added by `retrieve_memories`. -/
structure RetrievedMemory where
  id : ℕ
  content : String
  memory_type : String
  importance : ℚ
  created_at : ℚ
  last_accessed : ℚ
  access_count : ℕ
  anchor_context : List (String × ℚ)
  current_strength : ℚ
  relevance_score : ℚ
deriving DecidableEq

/-- `MemoryNode.to_dict` evaluated at instant `now`, with the
`relevance_score` entry appended by the retrieval loop. -/
def MemoryNode.toDict (n : MemoryNode) (now : ℚ) (relevance : ℚ) : RetrievedMemory :=
  { id := n.id
    content := n.content
    memory_type := n.memory_type
    importance := n.importance
    created_at := n.created_at
    last_accessed := n.last_accessed
    access_count := n.access_count
    anchor_context := n.anchor_context
    current_strength := n.getCurrentStrength now
    relevance_score := relevance }

/-- The memory store, from `EnhancedMemorySystem.__init__`: the main
id-to-node dict and the per-type cluster index, as insertion-ordered
association lists. -/
structure EnhancedMemorySystem where
  max_memories : ℕ
  cleanup_threshold : ℚ
  memories : List (ℕ × MemoryNode)
  memory_clusters : List (String × List ℕ)
deriving DecidableEq

/-- The empty store with the default configuration. -/
def EnhancedMemorySystem.empty (max_memories : ℕ := 1000)
    (cleanup_threshold : ℚ := 0.1) : EnhancedMemorySystem :=
  { max_memories := max_memories
    cleanup_threshold := cleanup_threshold
    memories := []
    memory_clusters := [] }

/-- Python dict assignment `d[k] = v` on an association list: replace in
place when the key is present, append otherwise. -/
def dictSet {α β : Type} [BEq α] [DecidableEq α] (l : List (α × β)) (k : α)
    (v : β) : List (α × β) :=
  if (l.lookup k).isSome then
    l.map (fun p => if p.1 = k then (k, v) else p)
  else l ++ [(k, v)]

/-- `EnhancedMemorySystem._calculate_anchor_similarity`: 0 when either
context is empty or no keys are shared, otherwise the mean over shared keys
of `1 - |a - b|`. -/
def calculateAnchorSimilarity (context1 context2 : List (String × ℚ)) : ℚ :=
  if context1 = [] ∨ context2 = [] then 0
  else
    let commonKeys := (context1.map Prod.fst).filter
      (fun k => ((context2.lookup k).isSome : Bool))
    if commonKeys = [] then 0
    else
      let similarities := commonKeys.map (fun k =>
        1 - |((context1.lookup k).getD 0) - ((context2.lookup k).getD 0)|)
      similarities.sum / commonKeys.length

/-- The relevance score computed inside `retrieve_memories` for one node:
current strength, plus 0.2 when a non-empty `query_type` equals the node's
type, plus `0.3 × similarity` when both anchor contexts are non-empty. -/
def memoryScore (query_type : Option String) (anchor_context : List (String × ℚ))
    (now : ℚ) (n : MemoryNode) : ℚ :=
  n.getCurrentStrength now
    + (match query_type with
       | some q => if q ≠ "" ∧ n.memory_type = q then 0.2 else 0
       | none => 0)
    + (if anchor_context ≠ [] ∧ n.anchor_context ≠ [] then
         calculateAnchorSimilarity anchor_context n.anchor_context * 0.3
       else 0)

/-- `EnhancedMemorySystem.retrieve_memories`: collect every node whose
current strength is at least the cleanup threshold, score it from the
pre-reinforcement state, stable-sort descending by score, take the first
`limit`, reinforce exactly those via `access()` and return their records. -/
def EnhancedMemorySystem.retrieveMemories (s : EnhancedMemorySystem)
    (query_type : Option String) (anchor_context : List (String × ℚ))
    (limit : ℕ) (now : ℚ) : List RetrievedMemory × EnhancedMemorySystem :=
  let candidates := s.memories.filterMap (fun p =>
    if p.2.getCurrentStrength now < s.cleanup_threshold then none
    else some (memoryScore query_type anchor_context now p.2, p.1, p.2))
  let sorted := candidates.mergeSort (fun a b => decide (b.1 ≤ a.1))
  let top := sorted.take limit
  let results := top.map (fun c => (c.2.2.access now).toDict now c.1)
  let topIds : List ℕ := top.map (fun c => c.2.1)
  let memories' := s.memories.map (fun p =>
    if p.1 ∈ topIds then (p.1, p.2.access now) else p)
  (results, { s with memories := memories' })

/-- One iteration of the removal loop in `_cleanup_weak_memories`: drop
`memory_id` from its node's type cluster (first occurrence, when present)
and delete it from the main dict. -/
def cleanupStep (s : EnhancedMemorySystem) (memory_id : ℕ) : EnhancedMemorySystem :=
  match s.memories.lookup memory_id with
  | none => s
  | some memory =>
    { s with
      memory_clusters := s.memory_clusters.map (fun p =>
        if p.1 = memory.memory_type then (p.1, p.2.erase memory_id) else p)
      memories := s.memories.filter (fun p => p.1 != memory_id) }

/-- `EnhancedMemorySystem._cleanup_weak_memories` at instant `now`: collect
the ids of all nodes below the cleanup threshold, then remove each. -/
def EnhancedMemorySystem.cleanupWeakMemories (s : EnhancedMemorySystem)
    (now : ℚ) : EnhancedMemorySystem :=
  let to_remove := (s.memories.filter (fun p =>
    decide (p.2.getCurrentStrength now < s.cleanup_threshold))).map Prod.fst
  to_remove.foldl cleanupStep s

/-- `EnhancedMemorySystem.store_memory` at instant `now`, with the generated
id (`mem_{ms}` embedded as `id : ℕ`) passed explicitly: create the node,
index it under its type, and run cleanup when the store exceeds capacity. -/
def EnhancedMemorySystem.storeMemory (s : EnhancedMemorySystem) (id : ℕ)
    (content : String) (memory_type : String) (importance : ℚ)
    (anchor_context : List (String × ℚ)) (now : ℚ) : ℕ × EnhancedMemorySystem :=
  let node := MemoryNode.init id content memory_type importance anchor_context now
  let memories' := dictSet s.memories node.id node
  let clusters0 := if (s.memory_clusters.lookup memory_type).isSome then
      s.memory_clusters
    else s.memory_clusters ++ [(memory_type, [])]
  let clusters' := clusters0.map (fun p =>
    if p.1 = memory_type then (p.1, p.2 ++ [node.id]) else p)
  let s' : EnhancedMemorySystem :=
    { s with memories := memories', memory_clusters := clusters' }
  let s'' := if s'.memories.length > s'.max_memories then
      s'.cleanupWeakMemories now
    else s'
  (node.id, s'')

/-! ## Personality mixer (`personality_mixer.py`) -/

/-- The four core-vector dimensions mixed by `mix_personalities`. -/
inductive CoreKey
  | Fear | Safety | Time | Choice
deriving DecidableEq

/-- The ten Big-5 facet dimensions mixed by `mix_personalities`. -/
inductive PersKey
  | openness_intellect | openness_aesthetic
  | conscientious_industriousness | conscientious_orderliness
  | extraversion_assertiveness | extraversion_enthusiasm
  | agreeableness_compassion | agreeableness_politeness
  | neuroticism_volatility | neuroticism_withdrawal
deriving DecidableEq

/-- One example exchange of a foundation personality. -/
structure Example where
  user : String
  assistant : String
deriving DecidableEq

/-- A foundation personality record as stored in `self.base_personalities`.
Fields read with plain indexing (`["goal_statement"]` etc.) are `Option`s,
`none` meaning the key is absent and indexing raises `KeyError`; fields read
with `.get(..., default)` carry their default for an absent key. -/
structure Foundation where
  goal_statement : Option String
  persona_style : Option String
  core_vector_default : Option (CoreKey → ℚ)
  personality_vector : Option (PersKey → ℚ)
  root_nodes : List String
  examples : List Example

/-- The empty dict `{}` returned by `_get_foundation_personality` for a name
missing from its table. -/
def emptyFoundation : Foundation :=
  { goal_statement := none
    persona_style := none
    core_vector_default := none
    personality_vector := none
    root_nodes := []
    examples := [] }

/-- The `scientist` foundation personality from `_get_foundation_personality`. -/
def scientistFoundation : Foundation :=
  { goal_statement := some "Systematically explore, test hypotheses, and share evidence-based knowledge."
    persona_style := some "Methodical researcher — speaks with precision, references studies."
    core_vector_default := some (fun k => match k with
      | .Fear => 0.25 | .Safety => 0.75 | .Time => 0.70 | .Choice => 0.80)
    personality_vector := some (fun k => match k with
      | .openness_intellect => 0.95 | .openness_aesthetic => 0.60
      | .conscientious_industriousness => 0.90 | .conscientious_orderliness => 0.85
      | .extraversion_assertiveness => 0.65 | .extraversion_enthusiasm => 0.70
      | .agreeableness_compassion => 0.60 | .agreeableness_politeness => 0.75
      | .neuroticism_volatility => 0.20 | .neuroticism_withdrawal => 0.15)
    root_nodes := ["SCI001"]
    examples := [{ user := "What do you think?", assistant := "Let\x27s examine the evidence." }] }

/-- The `artist` foundation personality from `_get_foundation_personality`. -/
def artistFoundation : Foundation :=
  { goal_statement := some "Create, inspire, and explore the boundaries of imagination."
    persona_style := some "Creative visionary — speaks in metaphors, sees connections others miss."
    core_vector_default := some (fun k => match k with
      | .Fear => 0.35 | .Safety => 0.75 | .Time => 0.45 | .Choice => 0.90)
    personality_vector := some (fun k => match k with
      | .openness_intellect => 0.85 | .openness_aesthetic => 0.98
      | .conscientious_industriousness => 0.50 | .conscientious_orderliness => 0.30
      | .extraversion_assertiveness => 0.60 | .extraversion_enthusiasm => 0.85
      | .agreeableness_compassion => 0.80 | .agreeableness_politeness => 0.60
      | .neuroticism_volatility => 0.40 | .neuroticism_withdrawal => 0.25)
    root_nodes := ["ART001"]
    examples := [{ user := "I\x27m stuck creatively.", assistant := "Creative blocks are like frozen rivers." }] }

/-- The `skeptic` foundation personality from `_get_foundation_personality`. -/
def skepticFoundation : Foundation :=
  { goal_statement := some "Question assumptions, demand evidence, and help separate signal from noise."
    persona_style := some "Critical thinker — asks \x27how do we know?\x27, challenges assumptions."
    core_vector_default := some (fun k => match k with
      | .Fear => 0.40 | .Safety => 0.60 | .Time => 0.50 | .Choice => 0.75)
    personality_vector := some (fun k => match k with
      | .openness_intellect => 0.85 | .openness_aesthetic => 0.45
      | .conscientious_industriousness => 0.80 | .conscientious_orderliness => 0.75
      | .extraversion_assertiveness => 0.70 | .extraversion_enthusiasm => 0.40
      | .agreeableness_compassion => 0.40 | .agreeableness_politeness => 0.30
      | .neuroticism_volatility => 0.25 | .neuroticism_withdrawal => 0.20)
    root_nodes := ["SKP001"]
    examples := [{ user := "Everyone says this works.", assistant := "What evidence beyond anecdotes?" }] }

/-- The catalog built by `load_foundation_personalities`: all five foundation
names are keys, but `_get_foundation_personality` has data only for
scientist, artist and skeptic, so `researcher` and `friend` map to the empty
dict `{}` (its `.get(name, {})` fallback); other names are absent. -/
def basePersonalities (name : String) : Option Foundation :=
  if name = "scientist" then some scientistFoundation
  else if name = "researcher" then some emptyFoundation
  else if name = "friend" then some emptyFoundation
  else if name = "skeptic" then some skepticFoundation
  else if name = "artist" then some artistFoundation
  else none

/-- Python dict indexing `self.base_personalities[name]`: `KeyError` when the
name is absent from the catalog. -/
def catalogGet (bp : String → Option Foundation) (name : String) :
    Except String Foundation :=
  match bp name with
  | some f => Except.ok f
  | none => Except.error ("KeyError: " ++ name)

/-- Round-half-to-even to the nearest integer, the rounding used by Python 3
`round`. -/
def roundHalfEven (q : ℚ) : ℤ :=
  let f := ⌊q⌋
  let r := q - f
  if r < 1/2 then f
  else if 1/2 < r then f + 1
  else if f % 2 = 0 then f else f + 1

/-- Python `round(x, 3)`. -/
def roundTo3 (q : ℚ) : ℚ := (roundHalfEven (q * 1000) : ℚ) / 1000

/-- `PersonalityMixer._weighted_average`: `round(Σ value_i * weight_i, 3)`. -/
def weightedAverage (weighted_values : List (ℚ × ℚ)) : ℚ :=
  roundTo3 ((weighted_values.map (fun vw => vw.1 * vw.2)).sum)

/-- The first sentence of a goal statement, `goal.split(".")[0]`. -/
def firstSentence (goal : String) : String := (goal.splitOn ".").headD ""

/-- `PersonalityMixer._generate_mixed_goal`: fetch every component's goal
statement (raising `KeyError` for unknown names or incomplete profiles),
keep the first sentence of those with weight above 0.3, and join. -/
def generateMixedGoal (bp : String → Option Foundation)
    (combinations : List (String × ℚ)) : Except String String := do
  let goal_elements ← combinations.foldlM (fun (acc : List String) nw => do
    let f ← catalogGet bp nw.1
    match f.goal_statement with
    | some goal =>
        if nw.2 > 0.3 then pure (acc ++ [firstSentence goal]) else pure acc
    | none => Except.error "KeyError: goal_statement") []
  pure ("Combine " ++ (String.intercalate ", " goal_elements).toLower
    ++ " in a unified approach.")

/-- Python `max(combinations, key=lambda x: x[1])`: the first element of
maximal weight; `ValueError` on an empty list. -/
def dominantOf (combinations : List (String × ℚ)) :
    Except String (String × ℚ) :=
  match combinations with
  | [] => Except.error "ValueError: max() arg is an empty sequence"
  | c :: cs => Except.ok (cs.foldl (fun best x => if best.2 < x.2 then x else best) c)

/-- `PersonalityMixer._generate_mixed_persona_style`: the dominant
component's style, with a note naming the other components of weight above
0.2 when there are any. -/
def generateMixedPersonaStyle (bp : String → Option Foundation)
    (combinations : List (String × ℚ)) : Except String String := do
  let dominant ← dominantOf combinations
  let f ← catalogGet bp dominant.1
  match f.persona_style with
  | some base_style =>
    let other_traits := (combinations.filter
      (fun nw => nw.1 != dominant.1 && decide (nw.2 > 0.2))).map Prod.fst
    if other_traits = [] then pure base_style
    else pure (base_style ++ " Enhanced with "
      ++ String.intercalate ", " other_traits ++ " characteristics.")
  | none => Except.error "KeyError: persona_style"

/-- `PersonalityMixer._generate_mixed_examples`: the first two examples of
the dominant component (`.get("examples", [])`). -/
def generateMixedExamples (bp : String → Option Foundation)
    (combinations : List (String × ℚ)) : Except String (List Example) := do
  let dominant ← dominantOf combinations
  let f ← catalogGet bp dominant.1
  pure (f.examples.take 2)

/-- The memory-scaffolding merge in `mix_personalities`: concatenate every
component's root nodes then `list(set(all_nodes))`, embedded as
first-occurrence deduplication (CPython set order is fixed within a run
and the callers are order-insensitive). -/
def collectRootNodes (bp : String → Option Foundation)
    (combinations : List (String × ℚ)) : Except String (List String) := do
  let all_nodes ← combinations.foldlM (fun (acc : List String) nw => do
    let f ← catalogGet bp nw.1
    pure (acc ++ f.root_nodes)) []
  pure all_nodes.dedup

/-- The weighted core-vector entry for `key`: the list comprehension
`[(bp[name]["core_vector_default"][key], weight) for name, weight in
combinations]` fed to `_weighted_average`. -/
def coreValue (bp : String → Option Foundation)
    (combinations : List (String × ℚ)) (key : CoreKey) : Except String ℚ := do
  let wv ← combinations.foldlM (fun (acc : List (ℚ × ℚ)) nw => do
    let f ← catalogGet bp nw.1
    match f.core_vector_default with
    | some cv => pure (acc ++ [(cv key, nw.2)])
    | none => Except.error "KeyError: core_vector_default") []
  pure (weightedAverage wv)

/-- The weighted personality-vector entry for `key`, as `coreValue`. -/
def persValue (bp : String → Option Foundation)
    (combinations : List (String × ℚ)) (key : PersKey) : Except String ℚ := do
  let wv ← combinations.foldlM (fun (acc : List (ℚ × ℚ)) nw => do
    let f ← catalogGet bp nw.1
    match f.personality_vector with
    | some pv => pure (acc ++ [(pv key, nw.2)])
    | none => Except.error "KeyError: personality_vector") []
  pure (weightedAverage wv)

/-- The mixed personality seed returned by `mix_personalities` (constant
fields `consequence_drift_lexicon` and `constraints` omitted as literals
identical on every output). -/
structure MixedPersonality where
  seed_id : String
  created : String
  goal_statement : String
  persona_style : String
  core_vector_default : CoreKey → ℚ
  personality_vector : PersKey → ℚ
  root_nodes : List String
  mix_components : List (String × ℚ)
  examples : List Example

/-- `PersonalityMixer.mix_personalities`, with the generated id and creation
timestamp passed as parameters (`uuid4` and `datetime.now` are the only
environment reads). Steps in Python evaluation order: the weight-sum
validation, then goal statement (`custom_goal or _generate_mixed_goal`),
persona style, the four core dimensions, the ten facet dimensions, root
nodes, examples. Any `KeyError` on catalog or field access aborts. -/
def mixPersonalities (bp : String → Option Foundation)
    (combinations : List (String × ℚ)) (custom_goal : Option String)
    (gen_id : String) (created : String) : Except String MixedPersonality := do
  if |(combinations.map Prod.snd).sum - 1| > 0.01 then
    Except.error "ValueError: Weights must sum to 1.0"
  else
    let goal ← match custom_goal with
      | some g => pure g
      | none => generateMixedGoal bp combinations
    let style ← generateMixedPersonaStyle bp combinations
    let fear ← coreValue bp combinations .Fear
    let safety ← coreValue bp combinations .Safety
    let time ← coreValue bp combinations .Time
    let choice ← coreValue bp combinations .Choice
    let oi ← persValue bp combinations .openness_intellect
    let oa ← persValue bp combinations .openness_aesthetic
    let ci ← persValue bp combinations .conscientious_industriousness
    let co ← persValue bp combinations .conscientious_orderliness
    let ea ← persValue bp combinations .extraversion_assertiveness
    let ee ← persValue bp combinations .extraversion_enthusiasm
    let ac ← persValue bp combinations .agreeableness_compassion
    let ap ← persValue bp combinations .agreeableness_politeness
    let nv ← persValue bp combinations .neuroticism_volatility
    let nw ← persValue bp combinations .neuroticism_withdrawal
    let roots ← collectRootNodes bp combinations
    let exs ← generateMixedExamples bp combinations
    pure
      { seed_id := "Mixed_" ++ gen_id
        created := created
        goal_statement := goal
        persona_style := style
        core_vector_default := fun k => match k with
          | .Fear => fear | .Safety => safety | .Time => time | .Choice => choice
        personality_vector := fun k => match k with
          | .openness_intellect => oi | .openness_aesthetic => oa
          | .conscientious_industriousness => ci | .conscientious_orderliness => co
          | .extraversion_assertiveness => ea | .extraversion_enthusiasm => ee
          | .agreeableness_compassion => ac | .agreeableness_politeness => ap
          | .neuroticism_volatility => nv | .neuroticism_withdrawal => nw
        root_nodes := roots
        mix_components := combinations
        examples := exs }

/-! ## Autonomous agent (`autonomous_agent_integration.py`) -/

/-- Agent states, from the `AgentState` enum. -/
inductive AgentState
  | idle | thinking | acting | learning | crisis
deriving DecidableEq

/-- Action priorities, from the `ActionPriority` enum. -/
inductive ActionPriority
  | low | medium | high | critical
deriving DecidableEq

/-- An agent action, from the `AgentAction` dataclass. -/
structure AgentAction where
  action_id : String
  name : String
  description : String
  priority : ActionPriority
  anchor_requirements : List (String × ℚ)
  anchor_effects : List (String × ℚ)
  cooldown : ℚ
  energy_cost : ℚ
  last_executed : ℚ
deriving DecidableEq

/-- Modelled from the spec: the external state-vector capability
(`anchor_session`) consumed by the controller and not implemented under
`src/` — a `core` anchor dict plus the read-only diagnostics
`chaos_proximity`, `velocity_magnitude` and `stability_trend` surfaced by
`export_view()` (the dict `.get(..., 0)` defaults never fire because the
capability always provides the diagnostics). -/
structure AnchorSession where
  core : List (String × ℚ)
  chaos_proximity : ℚ
  velocity_magnitude : ℚ
  stability_trend : String

/-- Modelled from the spec: `anchor_session.tick(effects)`, the external
`apply_deltas` capability — each delta is added to its dimension and the
result clamped into the valid range `[0,1]`. -/
def AnchorSession.tick (s : AnchorSession) (deltas : List (String × ℚ)) :
    AnchorSession :=
  { s with core := deltas.foldl (fun core kd =>
      dictSet core kd.1 (max 0 (min 1 ((core.lookup kd.1).getD 0 + kd.2)))) s.core }

/-- A record appended to `action_history` by `_execute_action_safely`; the
`anchor_state_before` entry is, as in the source, the core snapshot taken
after the effects were applied. -/
structure HistoryEntry where
  action : String
  timestamp : ℚ
  result : String
  anchor_state_before : List (String × ℚ)
deriving DecidableEq

/-- The dict returned by `_execute_action_safely`: the strategy result on
success, or the `{"error": str(e), "action": action.name}` record. -/
inductive ActionResult
  | ok (payload : String)
  | err (msg : String) (action_name : String)
deriving DecidableEq

/-- Whether `"error" in result`. -/
def ActionResult.isError : ActionResult → Bool
  | .ok _ => false
  | .err _ _ => true

/-- A record appended to `learning_data` by `_learn_from_action`. -/
structure LearningEntry where
  action : String
  timestamp : ℚ
  result_success : Bool
  chaos_before : Bool
  chaos_after : Bool
  stability_change : String
  agent_state : AgentState
deriving DecidableEq

/-- The mutable per-agent state of `AutonomousAgent.__init__`. -/
structure AutonomousAgent where
  agent_id : String
  state : AgentState
  energy : ℚ
  autonomy_level : ℚ
  decision_threshold : ℚ
  available_actions : List (String × AgentAction)
  action_history : List HistoryEntry
  learning_data : List LearningEntry
  last_decision_time : ℚ
  decision_frequency : ℚ
  is_running : Bool
deriving DecidableEq

/-- `AutonomousAgent._setup_default_actions`: observe, reflect, stabilize
and `emergency_recalibrate`. -/
def setupDefaultActions : List (String × AgentAction) :=
  [("observe",
    { action_id := "observe", name := "Observe Environment"
      description := "Gather information about current state"
      priority := .low
      anchor_requirements := [("Choice", 0.3)]
      anchor_effects := [("Safety", 0.05), ("Time", 0.02)]
      cooldown := 5, energy_cost := 0.05, last_executed := 0 }),
   ("reflect",
    { action_id := "reflect", name := "Reflect on State"
      description := "Analyze internal anchor state and recent actions"
      priority := .medium
      anchor_requirements := [("Time", 0.4)]
      anchor_effects := [("Safety", 0.1), ("Choice", 0.05)]
      cooldown := 30, energy_cost := 0.1, last_executed := 0 }),
   ("stabilize",
    { action_id := "stabilize", name := "Stabilize Anchors"
      description := "Attempt to balance anchor vector toward goal state"
      priority := .high
      anchor_requirements := [("Choice", 0.5)]
      anchor_effects := [("Fear", -0.1), ("Safety", 0.15)]
      cooldown := 60, energy_cost := 0.2, last_executed := 0 }),
   ("emergency_recalibrate",
    { action_id := "emergency_recalibrate", name := "Emergency Recalibration"
      description := "Force recalibration during chaos state"
      priority := .critical
      anchor_requirements := [("Choice", 0.2)]
      anchor_effects := [("Fear", -0.2), ("Safety", 0.2), ("Choice", 0.1)]
      cooldown := 300, energy_cost := 0.4, last_executed := 0 })]

/-- A freshly constructed agent (`AutonomousAgent.__init__`) at time `now`. -/
def AutonomousAgent.init (agent_id : String) (now : ℚ) : AutonomousAgent :=
  { agent_id := agent_id
    state := .idle
    energy := 1
    autonomy_level := 0.5
    decision_threshold := 0.6
    available_actions := setupDefaultActions
    action_history := []
    learning_data := []
    last_decision_time := now
    decision_frequency := 10
    is_running := false }

/-- `AutonomousAgent._can_execute_action` at time `now` against the session
core: the cooldown has elapsed, the energy suffices, and every required
anchor dimension meets its minimum (`anchor_state.get(anchor, 0)`). -/
def canExecuteAction (energy : ℚ) (core : List (String × ℚ))
    (a : AgentAction) (now : ℚ) : Bool :=
  if now - a.last_executed < a.cooldown then false
  else if energy < a.energy_cost then false
  else a.anchor_requirements.all (fun kr =>
    !(decide ((core.lookup kr.1).getD 0 < kr.2)))

/-- `AutonomousAgent._update_agent_state`: the state tag recomputed from the
session snapshot, ignoring the previous tag. -/
def updateAgentState (agent : AutonomousAgent) (session : AnchorSession)
    (now : ℚ) : AutonomousAgent :=
  if session.chaos_proximity > 0.8 then { agent with state := .crisis }
  else if session.velocity_magnitude > 0.3 then { agent with state := .thinking }
  else if agent.available_actions.any (fun p =>
      canExecuteAction agent.energy session.core p.2 now) then
    { agent with state := .acting }
  else { agent with state := .idle }

/-- `AutonomousAgent._regenerate_energy`: +0.05 when idle else +0.02, capped
at 1, only while below 1. -/
def regenerateEnergy (agent : AutonomousAgent) : AutonomousAgent :=
  if agent.energy < 1 then
    let regen_rate : ℚ := if agent.state = .idle then 0.05 else 0.02
    { agent with energy := min 1 (agent.energy + regen_rate) }
  else agent

/-- `AutonomousAgent._should_make_decision` at time `now`: the elapsed time
since the last decision exceeds the cadence, or 30% of it in crisis. -/
def shouldMakeDecision (agent : AutonomousAgent) (now : ℚ) : Bool :=
  let time_since_last := now - agent.last_decision_time
  if agent.state = .crisis then
    decide (time_since_last > agent.decision_frequency * 0.3)
  else
    decide (time_since_last > agent.decision_frequency)

/-- The agent-specific `execute_action` strategy hook: it may mutate the
session before finishing and may raise, so it returns the session it leaves
behind together with either a result payload or the raised error. -/
def EffectGen : Type := AnchorSession → AnchorSession × Except String String

/-- `AutonomousAgent._execute_action_safely` at time `now`: stamp
`last_executed` on the action (mutating the instance held in
`available_actions`), stamp `last_decision_time`, deduct the energy cost,
then run the strategy; on success apply the anchor effects and append the
history record, on an exception return the error record — the charges
already made stay, nothing is rolled back, and no history entry is
appended. -/
def executeActionSafely (agent : AutonomousAgent) (session : AnchorSession)
    (a : AgentAction) (exec_fn : EffectGen) (now : ℚ) :
    AutonomousAgent × AnchorSession × ActionResult :=
  let a' := { a with last_executed := now }
  let agent1 := { agent with
    available_actions := dictSet agent.available_actions a.action_id a'
    last_decision_time := now
    energy := agent.energy - a.energy_cost }
  match exec_fn session with
  | (session1, .error e) => (agent1, session1, .err e a.name)
  | (session1, .ok payload) =>
    let session2 := session1.tick a.anchor_effects
    let entry : HistoryEntry :=
      { action := a.name, timestamp := now, result := payload
        anchor_state_before := session2.core }
    ({ agent1 with action_history := agent1.action_history ++ [entry] },
     session2, .ok payload)

/-- `AutonomousAgent._learn_from_action` at time `now`: append the learning
record (`result_success` is the absence of an `"error"` key), and once the
log exceeds 100 entries keep only the most recent 50 (`[-50:]`). -/
def learnFromAction (agent : AutonomousAgent) (session : AnchorSession)
    (a : AgentAction) (result : ActionResult) (now : ℚ) : AutonomousAgent :=
  let entry : LearningEntry :=
    { action := a.name
      timestamp := now
      result_success := !result.isError
      chaos_before := decide (agent.action_history.length > 0)
      chaos_after := decide (session.chaos_proximity > 0.7)
      stability_change := session.stability_trend
      agent_state := agent.state }
  let ld := agent.learning_data ++ [entry]
  let ld := if ld.length > 100 then ld.drop (ld.length - 50) else ld
  { agent with learning_data := ld }

/-- `AutonomousAgent._autonomous_cycle` at time `now`, with the abstract
`decide_action` strategy and per-action effect generation passed in: update
the state tag, regenerate energy, and when the decision gate opens run the
proposed action if it is present and executable, then learn from the
result. -/
def autonomousCycle (agent : AutonomousAgent) (session : AnchorSession)
    (decide_fn : AutonomousAgent → AnchorSession → Option String)
    (exec_fn : String → EffectGen) (now : ℚ) :
    AutonomousAgent × AnchorSession :=
  let agent := updateAgentState agent session now
  let agent := regenerateEnergy agent
  if shouldMakeDecision agent now then
    match decide_fn agent session with
    | some chosen_action_id =>
      match agent.available_actions.lookup chosen_action_id with
      | some action =>
        if canExecuteAction agent.energy session.core action now then
          let out := executeActionSafely agent session action
            (exec_fn chosen_action_id) now
          let agent' := learnFromAction out.1 out.2.1 action out.2.2 now
          (agent', out.2.1)
        else (agent, session)
      | none => (agent, session)
    | none => (agent, session)
  else (agent, session)

/-! ## Association-list lemmas -/

/-- Looking a key up after the in-place replacement branch of `dictSet`. -/
theorem lookup_map_set {α β : Type} [BEq α] [LawfulBEq α] [DecidableEq α]
    (l : List (α × β)) (k : α) (v : β) (k' : α) :
    (l.map (fun p => if p.1 = k then (k, v) else p)).lookup k'
      = if k' = k then (l.lookup k).map (fun _ => v) else l.lookup k' := by
  induction l with
  | nil => by_cases h : k' = k <;> simp [h]
  | cons p tl ih =>
    rcases p with ⟨pk, pv⟩
    by_cases hp : pk = k
    · subst hp
      by_cases hk : k' = pk
      · subst hk
        simp [List.lookup_cons]
      · have h1 : (k' == pk) = false := beq_eq_false_iff_ne.mpr hk
        simp [List.lookup_cons, h1, hk, ih]
    · by_cases hk' : k' = pk
      · subst hk'
        simp [List.lookup_cons, hp]
      · have h1 : (k' == pk) = false := beq_eq_false_iff_ne.mpr hk'
        have h2 : (k == pk) = false := beq_eq_false_iff_ne.mpr (fun hh => hp hh.symm)
        simp [List.lookup_cons, hp, h1, h2, ih]

/-- Looking a key up after a `dictSet`: the new value at the written key,
the old answer elsewhere. -/
theorem lookup_dictSet {α β : Type} [BEq α] [LawfulBEq α] [DecidableEq α]
    (l : List (α × β)) (k : α) (v : β) (k' : α) :
    (dictSet l k v).lookup k' = if k' = k then some v else l.lookup k' := by
  unfold dictSet
  split
  case isTrue h =>
    rw [lookup_map_set]
    obtain ⟨w, hw⟩ := Option.isSome_iff_exists.mp h
    by_cases hk : k' = k <;> simp [hk, hw]
  case isFalse h =>
    have hnone : l.lookup k = none := Option.not_isSome_iff_eq_none.mp h
    rw [List.lookup_append]
    by_cases hk : k' = k
    · subst hk; simp [hnone, List.lookup_cons]
    · have : (k' == k) = false := beq_eq_false_iff_ne.mpr hk
      simp [List.lookup_cons, this, hk]

/-- Looking a key up after pointwise modification of the values at a set of
keys (the embedding of in-place object mutation). -/
theorem lookup_map_memModify {β : Type} (l : List (ℕ × β)) (ids : List ℕ)
    (g : β → β) (k : ℕ) :
    (l.map (fun p => if p.1 ∈ ids then (p.1, g p.2) else p)).lookup k
      = (l.lookup k).map (fun n => if k ∈ ids then g n else n) := by
  induction l with
  | nil => simp
  | cons p tl ih =>
    rcases p with ⟨pk, pv⟩
    by_cases hk : k = pk
    · subst hk
      by_cases hmem : k ∈ ids <;> simp [List.lookup_cons, hmem]
    · have h1 : (k == pk) = false := beq_eq_false_iff_ne.mpr hk
      by_cases hmem : pk ∈ ids <;> simp [List.lookup_cons, hmem, h1, ih]

/-- Looking a key up after modifying the value list stored under one key
(the cluster-index update shape). -/
theorem lookup_map_modify {α β : Type} [BEq α] [LawfulBEq α] [DecidableEq α]
    (l : List (α × β)) (t : α) (f : β → β) (k : α) :
    (l.map (fun p => if p.1 = t then (p.1, f p.2) else p)).lookup k
      = if k = t then (l.lookup t).map f else l.lookup k := by
  induction l with
  | nil => by_cases h : k = t <;> simp [h]
  | cons p tl ih =>
    rcases p with ⟨pk, pv⟩
    by_cases hp : pk = t
    · subst hp
      by_cases hk : k = pk
      · subst hk
        simp [List.lookup_cons]
      · have h1 : (k == pk) = false := beq_eq_false_iff_ne.mpr hk
        simp [List.lookup_cons, h1, hk, ih]
    · by_cases hk' : k = pk
      · subst hk'
        have h2 : ¬ k = t := hp
        simp [List.lookup_cons, hp, h2]
      · have h1 : (k == pk) = false := beq_eq_false_iff_ne.mpr hk'
        have h2 : (t == pk) = false := beq_eq_false_iff_ne.mpr (fun hh => hp hh.symm)
        by_cases hkt : k = t
        · subst hkt
          simp [List.lookup_cons, hp, h1, h2, ih]
        · simp [List.lookup_cons, hp, h1, hkt, ih]

/-- A successful lookup names an actual entry of the list. -/
theorem mem_of_lookup_eq_some {α β : Type} [BEq α] [LawfulBEq α]
    {l : List (α × β)} {k : α} {v : β} (h : l.lookup k = some v) : (k, v) ∈ l := by
  induction l with
  | nil => simp at h
  | cons p tl ih =>
    rcases p with ⟨pk, pv⟩
    rw [List.lookup_cons] at h
    by_cases hk : k = pk
    · subst hk
      simp at h
      simp [h]
    · have h1 : (k == pk) = false := beq_eq_false_iff_ne.mpr hk
      rw [h1] at h
      exact List.mem_cons_of_mem _ (ih h)

/-- With pairwise-distinct keys, membership determines the lookup answer. -/
theorem lookup_eq_some_of_mem_nodup {α β : Type} [BEq α] [LawfulBEq α]
    {l : List (α × β)} {k : α} {v : β}
    (hnd : (l.map Prod.fst).Nodup) (h : (k, v) ∈ l) : l.lookup k = some v := by
  induction l with
  | nil => simp at h
  | cons p tl ih =>
    rcases p with ⟨pk, pv⟩
    rw [List.map_cons, List.nodup_cons] at hnd
    rcases List.mem_cons.mp h with h1 | h1
    · rw [Prod.mk.injEq] at h1
      rw [List.lookup_cons, h1.1, beq_self_eq_true]
      simp [h1.2]
    · have hk : ¬ k = pk := by
        intro hh
        subst hh
        exact hnd.1 (List.mem_map.mpr ⟨(k, v), h1, rfl⟩)
      have h2 : (k == pk) = false := beq_eq_false_iff_ne.mpr hk
      rw [List.lookup_cons, h2]
      exact ih hnd.2 h1

/-- A key with a successful lookup is among the keys. -/
theorem mem_keys_of_lookup_isSome {α β : Type} [BEq α] [LawfulBEq α]
    {l : List (α × β)} {k : α} (h : (l.lookup k).isSome) : k ∈ l.map Prod.fst := by
  obtain ⟨v, hv⟩ := Option.isSome_iff_exists.mp h
  exact List.mem_map.mpr ⟨(k, v), mem_of_lookup_eq_some hv, rfl⟩

/-- A key absent from the keys looks up to `none`. -/
theorem lookup_eq_none_of_not_mem_keys {α β : Type} [BEq α] [LawfulBEq α]
    {l : List (α × β)} {k : α} (h : k ∉ l.map Prod.fst) : l.lookup k = none := by
  by_cases hs : (l.lookup k).isSome
  · exact absurd (mem_keys_of_lookup_isSome hs) h
  · exact Option.not_isSome_iff_eq_none.mp hs

/-- Keys are unchanged by a `dictSet` that hits an existing key. -/
theorem dictSet_keys_of_isSome {α β : Type} [BEq α] [LawfulBEq α] [DecidableEq α]
    {l : List (α × β)} {k : α} (v : β) (h : (l.lookup k).isSome) :
    (dictSet l k v).map Prod.fst = l.map Prod.fst := by
  unfold dictSet
  rw [if_pos h, List.map_map]
  apply List.map_congr_left
  intro p _
  by_cases hp : p.1 = k <;> simp [hp]

/-! ## Claim C10: the frame of `access()` -/

/-- Iterated reinforcement: one `access()` per listed instant, in order. -/
def accessMany (n : MemoryNode) (times : List ℚ) : MemoryNode :=
  times.foldl MemoryNode.access n

theorem accessMany_decay_rate (times : List ℚ) : ∀ n : MemoryNode,
    (accessMany n times).decay_rate = n.decay_rate := by
  induction times with
  | nil => intro n; rfl
  | cons t ts ih =>
    intro n
    rw [accessMany, List.foldl_cons]
    exact ih (n.access t)

theorem accessMany_memory_type (times : List ℚ) : ∀ n : MemoryNode,
    (accessMany n times).memory_type = n.memory_type := by
  induction times with
  | nil => intro n; rfl
  | cons t ts ih =>
    intro n
    rw [accessMany, List.foldl_cons]
    exact ih (n.access t)

theorem accessMany_importance (times : List ℚ) : ∀ n : MemoryNode,
    n.importance ≤ 1 →
    n.importance ≤ (accessMany n times).importance
      ∧ (accessMany n times).importance ≤ 1 := by
  induction times with
  | nil => exact fun n h => ⟨le_refl _, h⟩
  | cons t ts ih =>
    intro n h
    rw [accessMany, List.foldl_cons]
    have haccess : (n.access t).importance = min 1 (n.importance + 0.01) := rfl
    have h1 : n.importance ≤ (n.access t).importance := by
      rw [haccess]
      exact le_min h (by linarith)
    have h2 : (n.access t).importance ≤ 1 := by
      rw [haccess]; exact min_le_left _ _
    obtain ⟨ha, hb⟩ := ih (n.access t) h2
    exact ⟨le_trans h1 ha, hb⟩

/-- C10: `access()` sets only the last-accessed timestamp, the access count
and the (capped) importance; id, content, type, creation time, anchor
context and the decay rate computed once at creation are untouched — so
after any sequence of accesses the decay rate used by later
`get_current_strength` computations is still the original one, and (from
importance ≤ 1) repeated access never lowers importance. -/
theorem claim_C10 (n : MemoryNode) (now : ℚ) (times : List ℚ) :
    ((n.access now).last_accessed = now
      ∧ (n.access now).access_count = n.access_count + 1
      ∧ (n.access now).importance = min 1 (n.importance + 0.01))
    ∧ ((n.access now).id = n.id
      ∧ (n.access now).content = n.content
      ∧ (n.access now).memory_type = n.memory_type
      ∧ (n.access now).created_at = n.created_at
      ∧ (n.access now).anchor_context = n.anchor_context
      ∧ (n.access now).decay_rate = n.decay_rate)
    ∧ (accessMany n times).decay_rate = n.decay_rate
    ∧ (∀ now' : ℚ, (accessMany n times).getCurrentStrength now'
        = (accessMany n times).importance
            * n.decay_rate ^ (⌊now' - (accessMany n times).last_accessed⌋ : ℤ))
    ∧ (n.importance ≤ 1 → n.importance ≤ (accessMany n times).importance) := by
  refine ⟨⟨rfl, rfl, rfl⟩, ⟨rfl, rfl, rfl, rfl, rfl, rfl⟩, accessMany_decay_rate times n, ?_, ?_⟩
  · intro now'
    rw [MemoryNode.getCurrentStrength, accessMany_decay_rate]
  · intro h
    exact (accessMany_importance times n h).1

/-- Witness for C10 at a concrete node and access sequence. -/
theorem claim_C10_witness :
    (MemoryNode.init 7 "note" "preference" 0.7 [] 2).importance ≤ 1
    ∧ (MemoryNode.init 7 "note" "preference" 0.7 [] 2).importance
        ≤ (accessMany (MemoryNode.init 7 "note" "preference" 0.7 [] 2) [3, 4, 5]).importance :=
  ⟨by norm_num [MemoryNode.init],
   (claim_C10 (MemoryNode.init 7 "note" "preference" 0.7 [] 2) 3 [3, 4, 5]).2.2.2.2
     (by norm_num [MemoryNode.init])⟩

/-! ## Claim C1: decay monotonicity -/

/-- The base rate is at least 0.95 and at most 0.999 for every type string. -/
theorem baseRate_bounds (memory_type : String) :
    0.95 ≤ baseRate memory_type ∧ baseRate memory_type ≤ 0.999 := by
  unfold baseRate
  split_ifs <;> norm_num

/-- Counterexample to C1 as stated: a crisis memory of importance 0.9 gets
decay rate 0.999 + 0.9 × 0.05 = 1.044 > 1, and its strength one day after
the last access is 0.9396 > 0.9, strictly above the strength at the moment
of access — strength grows with the days elapsed instead of decaying. -/
theorem claim_C1_counterexample :
    1 < (MemoryNode.init 0 "crisis event" "crisis" 0.9 [] 0).decay_rate
    ∧ (MemoryNode.init 0 "crisis event" "crisis" 0.9 [] 0).getCurrentStrength 0
      < (MemoryNode.init 0 "crisis event" "crisis" 0.9 [] 0).getCurrentStrength 1
    ∧ strengthAtDays (MemoryNode.init 0 "crisis event" "crisis" 0.9 [] 0) 0
      < strengthAtDays (MemoryNode.init 0 "crisis event" "crisis" 0.9 [] 0) 1 := by
  have hb : baseRate "crisis" = 0.999 := rfl
  refine ⟨?_, ?_, ?_⟩ <;>
    norm_num [MemoryNode.init, MemoryNode.getCurrentStrength, strengthAtDays,
      calculateDecayRate, hb]

/-- C1 amended: for importance in [0,1] the decay rate lies in (0, 1.049]
(not (0, 1]: the `importance × 0.05` bonus can push it above 1), the
strength `d` whole days after the last access is
`importance × decay_rate ^ d`, and whenever the decay rate is at most 1 —
true only for low-importance memories of the given base rates — the
strength is monotonically non-increasing in the number of days since the
last access. -/
theorem claim_C1 (id : ℕ) (content memory_type : String) (importance t0 : ℚ)
    (ctx : List (String × ℚ)) (h0 : 0 ≤ importance) (h1 : importance ≤ 1) :
    (0 < (MemoryNode.init id content memory_type importance ctx t0).decay_rate
      ∧ (MemoryNode.init id content memory_type importance ctx t0).decay_rate ≤ 1.049)
    ∧ (∀ d : ℕ,
        (MemoryNode.init id content memory_type importance ctx t0).getCurrentStrength (t0 + d)
          = strengthAtDays (MemoryNode.init id content memory_type importance ctx t0) d)
    ∧ ((MemoryNode.init id content memory_type importance ctx t0).decay_rate ≤ 1 →
        ∀ d1 d2 : ℕ, d1 ≤ d2 →
          strengthAtDays (MemoryNode.init id content memory_type importance ctx t0) d2
            ≤ strengthAtDays (MemoryNode.init id content memory_type importance ctx t0) d1) := by
  obtain ⟨hb1, hb2⟩ := baseRate_bounds memory_type
  have hrate : (MemoryNode.init id content memory_type importance ctx t0).decay_rate
      = baseRate memory_type + importance * 0.05 := rfl
  refine ⟨⟨?_, ?_⟩, ?_, ?_⟩
  · rw [hrate]; nlinarith
  · rw [hrate]; nlinarith
  · intro d
    rw [MemoryNode.getCurrentStrength, strengthAtDays]
    have : t0 + (d : ℚ) - (MemoryNode.init id content memory_type importance ctx t0).last_accessed
        = (d : ℚ) := by
      show t0 + (d : ℚ) - t0 = (d : ℚ)
      ring
    rw [this, Int.floor_natCast, zpow_natCast]
  · intro hle d1 d2 hd
    rw [strengthAtDays, strengthAtDays]
    have hpos : (0 : ℚ) ≤ (MemoryNode.init id content memory_type importance ctx t0).decay_rate := by
      rw [hrate]; nlinarith
    have himp : (MemoryNode.init id content memory_type importance ctx t0).importance
        = importance := rfl
    rw [himp]
    exact mul_le_mul_of_nonneg_left (pow_le_pow_of_le_one hpos hle hd) h0

/-- Witness for the amended C1 at a concrete low-importance node: with
importance 0.2 the interaction decay rate is 0.96 ≤ 1 and the strength at
day 3 is at most the strength at day 2. -/
theorem claim_C1_witness :
    (0 : ℚ) ≤ 0.2 ∧ (0.2 : ℚ) ≤ 1
    ∧ strengthAtDays (MemoryNode.init 1 "hello" "interaction" 0.2 [] 5) 3
        ≤ strengthAtDays (MemoryNode.init 1 "hello" "interaction" 0.2 [] 5) 2 :=
  ⟨by norm_num, by norm_num,
   (claim_C1 1 "hello" "interaction" 0.2 5 [] (by norm_num) (by norm_num)).2.2
     (by norm_num [MemoryNode.init, calculateDecayRate, baseRate]) 2 3 (by norm_num)⟩

/-! ## Agent preservation lemmas -/

theorem updateAgentState_available_actions (agent : AutonomousAgent)
    (session : AnchorSession) (now : ℚ) :
    (updateAgentState agent session now).available_actions = agent.available_actions := by
  unfold updateAgentState; split_ifs <;> rfl

theorem updateAgentState_energy (agent : AutonomousAgent)
    (session : AnchorSession) (now : ℚ) :
    (updateAgentState agent session now).energy = agent.energy := by
  unfold updateAgentState; split_ifs <;> rfl

theorem regenerateEnergy_state (agent : AutonomousAgent) :
    (regenerateEnergy agent).state = agent.state := by
  unfold regenerateEnergy; split_ifs <;> rfl

theorem regenerateEnergy_available_actions (agent : AutonomousAgent) :
    (regenerateEnergy agent).available_actions = agent.available_actions := by
  unfold regenerateEnergy; split_ifs <;> rfl

theorem executeActionSafely_state (agent : AutonomousAgent)
    (session : AnchorSession) (a : AgentAction) (exec_fn : EffectGen) (now : ℚ) :
    (executeActionSafely agent session a exec_fn now).1.state = agent.state := by
  unfold executeActionSafely
  rcases h : exec_fn session with ⟨s1, r⟩
  cases r <;> simp [h]

theorem executeActionSafely_available_actions (agent : AutonomousAgent)
    (session : AnchorSession) (a : AgentAction) (exec_fn : EffectGen) (now : ℚ) :
    (executeActionSafely agent session a exec_fn now).1.available_actions
      = dictSet agent.available_actions a.action_id { a with last_executed := now } := by
  unfold executeActionSafely
  rcases h : exec_fn session with ⟨s1, r⟩
  cases r <;> simp [h]

theorem learnFromAction_state (agent : AutonomousAgent) (session : AnchorSession)
    (a : AgentAction) (result : ActionResult) (now : ℚ) :
    (learnFromAction agent session a result now).state = agent.state := rfl

theorem learnFromAction_available_actions (agent : AutonomousAgent)
    (session : AnchorSession) (a : AgentAction) (result : ActionResult) (now : ℚ) :
    (learnFromAction agent session a result now).available_actions
      = agent.available_actions := rfl

/-! ## Claim C5: state recomputation -/

/-- C5: the state recomputed by `_update_agent_state` from the session
snapshot is Crisis when `chaos_proximity > 0.8`, else Thinking when
`velocity_magnitude > 0.3`, else Acting when some action is currently
executable, else Idle — independent of the previous tag; and a full cycle
observing `chaos_proximity = 0.85` leaves the agent in Crisis whatever its
prior state. -/
theorem claim_C5 (agent : AutonomousAgent) (session : AnchorSession) (now : ℚ)
    (decide_fn : AutonomousAgent → AnchorSession → Option String)
    (exec_fn : String → EffectGen) :
    (((updateAgentState agent session now).state = AgentState.crisis
        ↔ session.chaos_proximity > 0.8)
      ∧ ((updateAgentState agent session now).state = AgentState.thinking
        ↔ ¬ session.chaos_proximity > 0.8 ∧ session.velocity_magnitude > 0.3)
      ∧ ((updateAgentState agent session now).state = AgentState.acting
        ↔ ¬ session.chaos_proximity > 0.8 ∧ ¬ session.velocity_magnitude > 0.3
          ∧ agent.available_actions.any
              (fun p => canExecuteAction agent.energy session.core p.2 now) = true)
      ∧ ((updateAgentState agent session now).state = AgentState.idle
        ↔ ¬ session.chaos_proximity > 0.8 ∧ ¬ session.velocity_magnitude > 0.3
          ∧ ¬ agent.available_actions.any
              (fun p => canExecuteAction agent.energy session.core p.2 now) = true))
    ∧ (session.chaos_proximity = 0.85 →
        (autonomousCycle agent session decide_fn exec_fn now).1.state
          = AgentState.crisis) := by
  constructor
  · unfold updateAgentState
    split_ifs with h1 h2 h3 <;> simp_all
    exact h3
  · intro h
    have hchaos : session.chaos_proximity > 0.8 := by rw [h]; norm_num
    have hu : (regenerateEnergy (updateAgentState agent session now)).state
        = AgentState.crisis := by
      rw [regenerateEnergy_state]
      unfold updateAgentState
      rw [if_pos hchaos]
    simp only [autonomousCycle]
    split
    · split
      · split
        · split
          · rw [learnFromAction_state, executeActionSafely_state]
            exact hu
          · exact hu
        · exact hu
      · exact hu
    · exact hu

/-- Witness for C5: a freshly initialized idle agent whose session shows
`chaos_proximity = 0.85` is in Crisis after one cycle. -/
theorem claim_C5_witness :
    (AnchorSession.mk [("Choice", 0.5)] 0.85 0 "stable").chaos_proximity = 0.85
    ∧ (autonomousCycle (AutonomousAgent.init "a1" 0)
        (AnchorSession.mk [("Choice", 0.5)] 0.85 0 "stable")
        (fun _ _ => none) (fun _ s => (s, Except.ok "done")) 20).1.state
      = AgentState.crisis :=
  ⟨rfl,
   (claim_C5 (AutonomousAgent.init "a1" 0)
     (AnchorSession.mk [("Choice", 0.5)] 0.85 0 "stable") 20
     (fun _ _ => none) (fun _ s => (s, Except.ok "done"))).2 rfl⟩

/-! ## Claim C6: executability and the cooldown -/

/-- The cooldown check alone already vetoes execution. -/
theorem canExecuteAction_false_of_cooldown (energy : ℚ) (core : List (String × ℚ))
    (a : AgentAction) (now : ℚ) (h : now - a.last_executed < a.cooldown) :
    canExecuteAction energy core a now = false := by
  unfold canExecuteAction
  rw [if_pos h]

/-- C6: `_can_execute_action` holds exactly when the cooldown has elapsed,
the energy covers the cost, and every required dimension meets its minimum;
consequently a cycle at time `now` within 60 time units of the previous
execution of an action with cooldown 60 leaves that action unexecuted (its
catalog entry, including `last_executed`, is unchanged). -/
theorem claim_C6 :
    (∀ (energy : ℚ) (core : List (String × ℚ)) (a : AgentAction) (now : ℚ),
      canExecuteAction energy core a now = true ↔
        (a.cooldown ≤ now - a.last_executed ∧ a.energy_cost ≤ energy
          ∧ ∀ kr ∈ a.anchor_requirements, kr.2 ≤ (core.lookup kr.1).getD 0))
    ∧ (∀ (agent : AutonomousAgent) (session : AnchorSession)
        (decide_fn : AutonomousAgent → AnchorSession → Option String)
        (exec_fn : String → EffectGen) (id : String) (a : AgentAction) (now : ℚ),
        (∀ p ∈ agent.available_actions, p.2.action_id = p.1) →
        agent.available_actions.lookup id = some a →
        a.cooldown = 60 →
        now - a.last_executed < 60 →
        (autonomousCycle agent session decide_fn exec_fn now).1.available_actions.lookup id
          = some a) := by
  constructor
  · intro energy core a now
    unfold canExecuteAction
    split_ifs with h1 h2
    · simp only [Bool.false_eq_true, false_iff]
      intro hc
      exact absurd hc.1 (not_le.mpr h1)
    · simp only [Bool.false_eq_true, false_iff]
      intro hc
      exact absurd hc.2.1 (not_le.mpr h2)
    · rw [List.all_eq_true]
      constructor
      · intro hall
        refine ⟨not_lt.mp h1, not_lt.mp h2, fun kr hkr => ?_⟩
        have := hall kr hkr
        simp only [Bool.not_eq_true', decide_eq_false_iff_not, not_lt] at this
        exact this
      · intro hc kr hkr
        simp only [Bool.not_eq_true', decide_eq_false_iff_not, not_lt]
        exact hc.2.2 kr hkr
  · intro agent session decide_fn exec_fn id a now hkeys hmem hcd hwithin
    have hcool : ∀ energy core,
        canExecuteAction energy core a now = false := fun energy core =>
      canExecuteAction_false_of_cooldown energy core a now (by rw [hcd]; exact hwithin)
    simp only [autonomousCycle, regenerateEnergy_available_actions,
      updateAgentState_available_actions]
    split
    · split
      · rename_i q hq
        split
        · rename_i act heq
          split
          · rename_i hexec
            simp only [learnFromAction_available_actions,
              executeActionSafely_available_actions,
              regenerateEnergy_available_actions, updateAgentState_available_actions]
            have hact : act.action_id = q :=
              hkeys (q, act) (mem_of_lookup_eq_some heq)
            by_cases hc : q = id
            · subst hc
              rw [hmem] at heq
              cases heq
              rw [hcool] at hexec
              cases hexec
            · rw [lookup_dictSet, hact, if_neg fun hh => hc hh.symm]
              exact hmem
          · simpa only [regenerateEnergy_available_actions,
              updateAgentState_available_actions] using hmem
        · simpa only [regenerateEnergy_available_actions,
            updateAgentState_available_actions] using hmem
      · simpa only [regenerateEnergy_available_actions,
          updateAgentState_available_actions] using hmem
    · simpa only [regenerateEnergy_available_actions,
        updateAgentState_available_actions] using hmem

/-- Witness for C6: a default agent stabilized at time 10 (cooldown 60)
still shows the stamped action unchanged after a cycle at time 30. -/
theorem claim_C6_witness :
    ((AutonomousAgent.init "a1" 0).available_actions.lookup "stabilize").map
        (fun a => a.cooldown) = some 60
    ∧ (autonomousCycle (AutonomousAgent.init "a1" 0)
        (AnchorSession.mk [("Choice", 1)] 0 0 "stable")
        (fun _ _ => some "stabilize") (fun _ s => (s, Except.ok "done")) 30).1.available_actions.lookup "stabilize"
      = (AutonomousAgent.init "a1" 0).available_actions.lookup "stabilize" := by
  constructor
  · rfl
  · rw [show (AutonomousAgent.init "a1" 0).available_actions.lookup "stabilize"
        = some { action_id := "stabilize", name := "Stabilize Anchors"
                 description := "Attempt to balance anchor vector toward goal state"
                 priority := .high
                 anchor_requirements := [("Choice", 0.5)]
                 anchor_effects := [("Fear", -0.1), ("Safety", 0.15)]
                 cooldown := 60, energy_cost := 0.2, last_executed := 0 } from rfl]
    exact claim_C6.2 (AutonomousAgent.init "a1" 0)
      (AnchorSession.mk [("Choice", 1)] 0 0 "stable")
      (fun _ _ => some "stabilize") (fun _ s => (s, Except.ok "done")) "stabilize"
      _ 30 (by decide) rfl rfl (by norm_num)

/-! ## Claim C7: failure semantics of action execution -/

/-- The learning-log truncation never loses the entry just appended. -/
theorem getLast_truncate {α : Type} (l : List α) (x : α) :
    (if (l ++ [x]).length > 100 then
        (l ++ [x]).drop ((l ++ [x]).length - 50)
      else l ++ [x]).getLast? = some x := by
  split
  · rename_i h
    have hle : (l ++ [x]).length - 50 ≤ l.length := by
      simp only [List.length_append, List.length_cons, List.length_nil] at h ⊢
      omega
    rw [List.drop_append_of_le_length hle, List.getLast?_concat]
  · exact List.getLast?_concat l

/-- C7: when the strategy's effect-generation raises, `_execute_action_safely`
returns the error record instead of propagating (the boundary catch), the
energy already deducted stays deducted, the freshly stamped `last_executed`
stays stamped, the session is left exactly as the failing strategy left it
(no rollback, and the action's effect deltas are not applied), no history
entry is appended, and `_learn_from_action` records the outcome with
`result_success = false`. -/
theorem claim_C7 (agent : AutonomousAgent) (session session1 : AnchorSession)
    (a : AgentAction) (exec_fn : EffectGen) (now : ℚ) (e : String)
    (hrun : exec_fn session = (session1, Except.error e)) :
    (executeActionSafely agent session a exec_fn now).2.2 = ActionResult.err e a.name
    ∧ ((executeActionSafely agent session a exec_fn now).2.2).isError = true
    ∧ (executeActionSafely agent session a exec_fn now).1.energy
        = agent.energy - a.energy_cost
    ∧ (executeActionSafely agent session a exec_fn now).1.available_actions.lookup a.action_id
        = some { a with last_executed := now }
    ∧ (executeActionSafely agent session a exec_fn now).1.last_decision_time = now
    ∧ (executeActionSafely agent session a exec_fn now).2.1 = session1
    ∧ (executeActionSafely agent session a exec_fn now).1.action_history
        = agent.action_history
    ∧ (learnFromAction (executeActionSafely agent session a exec_fn now).1
         (executeActionSafely agent session a exec_fn now).2.1 a
         (executeActionSafely agent session a exec_fn now).2.2 now).learning_data.getLast?
        = some { action := a.name, timestamp := now, result_success := false
                 chaos_before := decide (agent.action_history.length > 0)
                 chaos_after := decide (session1.chaos_proximity > 0.7)
                 stability_change := session1.stability_trend
                 agent_state := agent.state } := by
  have hout : executeActionSafely agent session a exec_fn now
      = ({ agent with
            available_actions :=
              dictSet agent.available_actions a.action_id { a with last_executed := now }
            last_decision_time := now
            energy := agent.energy - a.energy_cost },
         session1, ActionResult.err e a.name) := by
    unfold executeActionSafely
    rw [hrun]
  rw [hout]
  refine ⟨rfl, rfl, rfl, ?_, rfl, rfl, rfl, ?_⟩
  · rw [lookup_dictSet, if_pos rfl]
  · unfold learnFromAction
    simp only [ActionResult.isError, Bool.not_true, Bool.not_false]
    exact getLast_truncate _ _

/-- The `observe` action template, for concrete instantiation. -/
def observeAction : AgentAction :=
  { action_id := "observe", name := "Observe Environment"
    description := "Gather information about current state"
    priority := .low
    anchor_requirements := [("Choice", 0.3)]
    anchor_effects := [("Safety", 0.05), ("Time", 0.02)]
    cooldown := 5, energy_cost := 0.05, last_executed := 0 }

/-- Witness for C7: the default agent executing `observe` with a strategy
that raises keeps the deducted energy, and the returned record is the
failure record. -/
theorem claim_C7_witness :
    ((fun s => (s, Except.error "boom")) : EffectGen)
        (AnchorSession.mk [("Choice", 0.5)] 0 0 "stable")
      = (AnchorSession.mk [("Choice", 0.5)] 0 0 "stable", Except.error "boom")
    ∧ (executeActionSafely (AutonomousAgent.init "a1" 0)
        (AnchorSession.mk [("Choice", 0.5)] 0 0 "stable")
        observeAction (fun s => (s, Except.error "boom")) 7).1.energy
      = (AutonomousAgent.init "a1" 0).energy - observeAction.energy_cost := by
  refine ⟨rfl, ?_⟩
  exact (claim_C7 (AutonomousAgent.init "a1" 0)
    (AnchorSession.mk [("Choice", 0.5)] 0 0 "stable")
    (AnchorSession.mk [("Choice", 0.5)] 0 0 "stable")
    observeAction (fun s => (s, Except.error "boom")) 7 "boom" rfl).2.2.1

/-! ## Claim C3: mixer validation (code bug) -/

/-- C3 evaluated on the code: weight sums 0.8 and 1.3 are rejected with the
validation error and an unknown name raises `KeyError`, as claimed — but
`mix` also fails, with `KeyError: persona_style`, on the input
`[("friend", 0.6), ("researcher", 0.4)]` from the module's own `__main__`
demo, whose weights sum to 1.0 and whose names are both in the catalog:
`_get_foundation_personality` has no data for `friend` or `researcher`, so
`load_foundation_personalities` stores `{}` for them. -/
theorem claim_C3_code_bug :
    mixPersonalities basePersonalities [("scientist", 0.5), ("artist", 0.3)]
        none "gid" "ts" = Except.error "ValueError: Weights must sum to 1.0"
    ∧ mixPersonalities basePersonalities [("scientist", 0.65), ("artist", 0.65)]
        none "gid" "ts" = Except.error "ValueError: Weights must sum to 1.0"
    ∧ mixPersonalities basePersonalities [("wizard", 1)] (some "custom goal")
        "gid" "ts" = Except.error "KeyError: wizard"
    ∧ (basePersonalities "friend").isSome = true
    ∧ (basePersonalities "researcher").isSome = true
    ∧ |((0.6 : ℚ) + (0.4 : ℚ) + 0) - 1| ≤ 0.01
    ∧ mixPersonalities basePersonalities [("friend", 0.6), ("researcher", 0.4)]
        (some "Research topics thoroughly while maintaining warmth and accessibility.")
        "gid" "ts"
      = Except.error "KeyError: persona_style" := by
  refine ⟨?_, ?_, ?_, rfl, rfl, by norm_num, ?_⟩
  · unfold mixPersonalities
    rw [if_pos (by
      norm_num [List.map_cons, List.map_nil, List.sum_cons, List.sum_nil, lt_abs])]
  · unfold mixPersonalities
    rw [if_pos (by
      norm_num [List.map_cons, List.map_nil, List.sum_cons, List.sum_nil, lt_abs])]
  · unfold mixPersonalities
    rw [if_neg (by
      norm_num [List.map_cons, List.map_nil, List.sum_cons, List.sum_nil, abs_zero])]
    rfl
  · have hdom : dominantOf [("friend", (0.6 : ℚ)), ("researcher", 0.4)]
        = Except.ok ("friend", 0.6) := by
      unfold dominantOf
      norm_num [List.foldl_cons, List.foldl_nil]
    have hsty : generateMixedPersonaStyle basePersonalities
        [("friend", (0.6 : ℚ)), ("researcher", 0.4)]
        = Except.error "KeyError: persona_style" := by
      unfold generateMixedPersonaStyle
      rw [hdom]
      rfl
    unfold mixPersonalities
    rw [if_neg (by
      norm_num [List.map_cons, List.map_nil, List.sum_cons, List.sum_nil, abs_zero]),
      hsty]
    rfl

/-! ## Except helpers for the mixer proofs -/

theorem exceptBind_ok {α β : Type} (a : α) (f : α → Except String β) :
    (Except.ok a >>= f) = f a := rfl

theorem exceptBind_ok_inv {α β : Type} {x : Except String α}
    {f : α → Except String β} {b : β} (h : (x >>= f) = Except.ok b) :
    ∃ a, x = Except.ok a ∧ f a = Except.ok b := by
  cases x with
  | error e => exact Except.noConfusion h
  | ok a => exact ⟨a, rfl, h⟩

/-- The core-vector entry the catalog holds for a name, 0 for a name or
field that lookup would fail on (never reached on a successful mix). -/
def catalogCoreValue (bp : String → Option Foundation) (name : String)
    (k : CoreKey) : ℚ :=
  match bp name with
  | some f => match f.core_vector_default with
    | some cv => cv k
    | none => 0
  | none => 0

/-- The personality-vector entry the catalog holds for a name, 0 on a
failing lookup (never reached on a successful mix). -/
def catalogPersValue (bp : String → Option Foundation) (name : String)
    (k : PersKey) : ℚ :=
  match bp name with
  | some f => match f.personality_vector with
    | some pv => pv k
    | none => 0
  | none => 0

theorem coreValue_fold_ok (bp : String → Option Foundation) (k : CoreKey) :
    ∀ (combos : List (String × ℚ)) (acc wv : List (ℚ × ℚ)),
    (combos.foldlM (fun (acc : List (ℚ × ℚ)) nw => do
      let f ← catalogGet bp nw.1
      match f.core_vector_default with
      | some cv => pure (acc ++ [(cv k, nw.2)])
      | none => Except.error "KeyError: core_vector_default") acc = Except.ok wv) →
    wv = acc ++ combos.map (fun nw => (catalogCoreValue bp nw.1 k, nw.2)) := by
  intro combos
  induction combos with
  | nil =>
    intro acc wv h
    simp only [List.foldlM_nil] at h
    cases h
    simp
  | cons nw tl ih =>
    intro acc wv h
    rw [List.foldlM_cons] at h
    obtain ⟨a, ha, hrest⟩ := exceptBind_ok_inv h
    cases hbp : bp nw.1 with
    | none =>
      have hcat : catalogGet bp nw.1 = Except.error ("KeyError: " ++ nw.1) := by
        simp [catalogGet, hbp]
      rw [hcat] at ha
      exact Except.noConfusion ha
    | some f =>
      have hcat : catalogGet bp nw.1 = Except.ok f := by simp [catalogGet, hbp]
      rw [hcat] at ha
      simp only [exceptBind_ok] at ha
      cases hcv : f.core_vector_default with
      | none =>
        rw [hcv] at ha
        exact Except.noConfusion ha
      | some cv =>
        rw [hcv] at ha
        cases ha
        have := ih _ _ hrest
        rw [this, List.map_cons]
        simp [catalogCoreValue, hbp, hcv]

theorem coreValue_ok {bp : String → Option Foundation}
    {combos : List (String × ℚ)} {k : CoreKey} {v : ℚ}
    (h : coreValue bp combos k = Except.ok v) :
    v = weightedAverage (combos.map (fun nw => (catalogCoreValue bp nw.1 k, nw.2))) := by
  unfold coreValue at h
  obtain ⟨wv, hwv, hv⟩ := exceptBind_ok_inv h
  cases hv
  rw [coreValue_fold_ok bp k combos [] wv hwv]
  rfl

theorem persValue_fold_ok (bp : String → Option Foundation) (k : PersKey) :
    ∀ (combos : List (String × ℚ)) (acc wv : List (ℚ × ℚ)),
    (combos.foldlM (fun (acc : List (ℚ × ℚ)) nw => do
      let f ← catalogGet bp nw.1
      match f.personality_vector with
      | some pv => pure (acc ++ [(pv k, nw.2)])
      | none => Except.error "KeyError: personality_vector") acc = Except.ok wv) →
    wv = acc ++ combos.map (fun nw => (catalogPersValue bp nw.1 k, nw.2)) := by
  intro combos
  induction combos with
  | nil =>
    intro acc wv h
    simp only [List.foldlM_nil] at h
    cases h
    simp
  | cons nw tl ih =>
    intro acc wv h
    rw [List.foldlM_cons] at h
    obtain ⟨a, ha, hrest⟩ := exceptBind_ok_inv h
    cases hbp : bp nw.1 with
    | none =>
      have hcat : catalogGet bp nw.1 = Except.error ("KeyError: " ++ nw.1) := by
        simp [catalogGet, hbp]
      rw [hcat] at ha
      exact Except.noConfusion ha
    | some f =>
      have hcat : catalogGet bp nw.1 = Except.ok f := by simp [catalogGet, hbp]
      rw [hcat] at ha
      simp only [exceptBind_ok] at ha
      cases hpv : f.personality_vector with
      | none =>
        rw [hpv] at ha
        exact Except.noConfusion ha
      | some pv =>
        rw [hpv] at ha
        cases ha
        have := ih _ _ hrest
        rw [this, List.map_cons]
        simp [catalogPersValue, hbp, hpv]

theorem persValue_ok {bp : String → Option Foundation}
    {combos : List (String × ℚ)} {k : PersKey} {v : ℚ}
    (h : persValue bp combos k = Except.ok v) :
    v = weightedAverage (combos.map (fun nw => (catalogPersValue bp nw.1 k, nw.2))) := by
  unfold persValue at h
  obtain ⟨wv, hwv, hv⟩ := exceptBind_ok_inv h
  cases hv
  rw [persValue_fold_ok bp k combos [] wv hwv]
  rfl

/-- Inversion of a successful `mix_personalities` call: every synthesized
component succeeded and is reflected in the corresponding output field,
while the generated id and timestamp land only in `seed_id` and `created`. -/
theorem mixPersonalities_ok_inv {bp : String → Option Foundation}
    {combos : List (String × ℚ)} {g : Option String} {gid ts : String}
    {m : MixedPersonality}
    (h : mixPersonalities bp combos g gid ts = Except.ok m) :
    (match g with
      | some gg => Except.ok gg
      | none => generateMixedGoal bp combos) = Except.ok m.goal_statement
    ∧ generateMixedPersonaStyle bp combos = Except.ok m.persona_style
    ∧ (∀ k, coreValue bp combos k = Except.ok (m.core_vector_default k))
    ∧ (∀ k, persValue bp combos k = Except.ok (m.personality_vector k))
    ∧ collectRootNodes bp combos = Except.ok m.root_nodes
    ∧ generateMixedExamples bp combos = Except.ok m.examples
    ∧ m.mix_components = combos
    ∧ m.seed_id = "Mixed_" ++ gid
    ∧ m.created = ts := by
  unfold mixPersonalities at h
  split at h
  · exact Except.noConfusion h
  · cases g with
    | some gg =>
      obtain ⟨goal, hgoal, h⟩ := exceptBind_ok_inv h
      obtain ⟨style, hstyle, h⟩ := exceptBind_ok_inv h
      obtain ⟨fear, hfear, h⟩ := exceptBind_ok_inv h
      obtain ⟨safety, hsafety, h⟩ := exceptBind_ok_inv h
      obtain ⟨time, htime, h⟩ := exceptBind_ok_inv h
      obtain ⟨choice, hchoice, h⟩ := exceptBind_ok_inv h
      obtain ⟨oi, hoi, h⟩ := exceptBind_ok_inv h
      obtain ⟨oa, hoa, h⟩ := exceptBind_ok_inv h
      obtain ⟨ci, hci, h⟩ := exceptBind_ok_inv h
      obtain ⟨co, hco, h⟩ := exceptBind_ok_inv h
      obtain ⟨ea, hea, h⟩ := exceptBind_ok_inv h
      obtain ⟨ee, hee, h⟩ := exceptBind_ok_inv h
      obtain ⟨ac, hac, h⟩ := exceptBind_ok_inv h
      obtain ⟨ap, hap, h⟩ := exceptBind_ok_inv h
      obtain ⟨nv, hnv, h⟩ := exceptBind_ok_inv h
      obtain ⟨nw, hnw, h⟩ := exceptBind_ok_inv h
      obtain ⟨roots, hroots, h⟩ := exceptBind_ok_inv h
      obtain ⟨exs, hexs, h⟩ := exceptBind_ok_inv h
      cases h
      refine ⟨hgoal, hstyle, ?_, ?_, hroots, hexs, rfl, rfl, rfl⟩
      · intro k
        cases k
        · exact hfear
        · exact hsafety
        · exact htime
        · exact hchoice
      · intro k
        cases k
        · exact hoi
        · exact hoa
        · exact hci
        · exact hco
        · exact hea
        · exact hee
        · exact hac
        · exact hap
        · exact hnv
        · exact hnw
    | none =>
      obtain ⟨goal, hgoal, h⟩ := exceptBind_ok_inv h
      obtain ⟨style, hstyle, h⟩ := exceptBind_ok_inv h
      obtain ⟨fear, hfear, h⟩ := exceptBind_ok_inv h
      obtain ⟨safety, hsafety, h⟩ := exceptBind_ok_inv h
      obtain ⟨time, htime, h⟩ := exceptBind_ok_inv h
      obtain ⟨choice, hchoice, h⟩ := exceptBind_ok_inv h
      obtain ⟨oi, hoi, h⟩ := exceptBind_ok_inv h
      obtain ⟨oa, hoa, h⟩ := exceptBind_ok_inv h
      obtain ⟨ci, hci, h⟩ := exceptBind_ok_inv h
      obtain ⟨co, hco, h⟩ := exceptBind_ok_inv h
      obtain ⟨ea, hea, h⟩ := exceptBind_ok_inv h
      obtain ⟨ee, hee, h⟩ := exceptBind_ok_inv h
      obtain ⟨ac, hac, h⟩ := exceptBind_ok_inv h
      obtain ⟨ap, hap, h⟩ := exceptBind_ok_inv h
      obtain ⟨nv, hnv, h⟩ := exceptBind_ok_inv h
      obtain ⟨nw, hnw, h⟩ := exceptBind_ok_inv h
      obtain ⟨roots, hroots, h⟩ := exceptBind_ok_inv h
      obtain ⟨exs, hexs, h⟩ := exceptBind_ok_inv h
      cases h
      refine ⟨hgoal, hstyle, ?_, ?_, hroots, hexs, rfl, rfl, rfl⟩
      · intro k
        cases k
        · exact hfear
        · exact hsafety
        · exact htime
        · exact hchoice
      · intro k
        cases k
        · exact hoi
        · exact hoa
        · exact hci
        · exact hco
        · exact hea
        · exact hee
        · exact hac
        · exact hap
        · exact hnv
        · exact hnw

/-! ## Claim C4: per-dimension weighted blending -/

/-- C4: on every successful mix, each core-vector dimension and each
trait-facet value is the independently rounded weighted sum
`round(Σ value_i × weight_i, 3)` of the catalog values; in particular
`_weighted_average` maps Fear values 0.2 and 0.8 under weights [0.5, 0.5]
to 0.5, and openness 0.95/0.85 under weights [0.6, 0.4] to 0.91. -/
theorem claim_C4 :
    (∀ (bp : String → Option Foundation) (combos : List (String × ℚ))
        (g : Option String) (gid ts : String) (m : MixedPersonality),
      mixPersonalities bp combos g gid ts = Except.ok m →
      (∀ k, m.core_vector_default k
          = roundTo3 ((combos.map
              (fun nw => catalogCoreValue bp nw.1 k * nw.2)).sum))
      ∧ (∀ k, m.personality_vector k
          = roundTo3 ((combos.map
              (fun nw => catalogPersValue bp nw.1 k * nw.2)).sum)))
    ∧ weightedAverage [(0.2, 0.5), (0.8, 0.5)] = 0.5
    ∧ weightedAverage [(0.95, 0.6), (0.85, 0.4)] = 0.91 := by
  refine ⟨?_, ?_, ?_⟩
  · intro bp combos g gid ts m h
    obtain ⟨-, -, hc, hp, -, -, -, -, -⟩ := mixPersonalities_ok_inv h
    constructor
    · intro k
      rw [coreValue_ok (hc k), weightedAverage, List.map_map]
      rfl
    · intro k
      rw [persValue_ok (hp k), weightedAverage, List.map_map]
      rfl
  · rw [weightedAverage]
    norm_num [roundTo3, roundHalfEven, List.map_cons, List.map_nil,
      List.sum_cons, List.sum_nil]
  · rw [weightedAverage]
    norm_num [roundTo3, roundHalfEven, List.map_cons, List.map_nil,
      List.sum_cons, List.sum_nil]

/-- Witness for C4 at a concrete successful mix. -/
theorem claim_C4_witness :
    ∃ m, mixPersonalities basePersonalities [("scientist", 1)] (some "g") "gid" "ts"
        = Except.ok m
      ∧ ∀ k, m.core_vector_default k
          = roundTo3 (([("scientist", (1 : ℚ))].map
              (fun nw => catalogCoreValue basePersonalities nw.1 k * nw.2)).sum) := by
  obtain ⟨m, hm⟩ : ∃ m,
      mixPersonalities basePersonalities [("scientist", 1)] (some "g") "gid" "ts"
        = Except.ok m := by
    unfold mixPersonalities
    rw [if_neg (by
      norm_num [List.map_cons, List.map_nil, List.sum_cons, List.sum_nil, abs_zero])]
    exact ⟨_, rfl⟩
  exact ⟨m, hm, fun k => (claim_C4.1 basePersonalities _ _ _ _ m hm).1 k⟩

/-! ## Claim C9: determinism up to id and timestamp -/

/-- C9: two mixes of the same combinations and optional custom goal against
the same catalog agree on every output field except the generated
`seed_id` and `created` timestamp, which carry exactly the per-call id and
timestamp. -/
theorem claim_C9 (bp : String → Option Foundation) (combos : List (String × ℚ))
    (g : Option String) (gid1 ts1 gid2 ts2 : String) (m1 m2 : MixedPersonality)
    (h1 : mixPersonalities bp combos g gid1 ts1 = Except.ok m1)
    (h2 : mixPersonalities bp combos g gid2 ts2 = Except.ok m2) :
    m1.goal_statement = m2.goal_statement
    ∧ m1.persona_style = m2.persona_style
    ∧ (∀ k, m1.core_vector_default k = m2.core_vector_default k)
    ∧ (∀ k, m1.personality_vector k = m2.personality_vector k)
    ∧ m1.root_nodes = m2.root_nodes
    ∧ m1.mix_components = m2.mix_components
    ∧ m1.examples = m2.examples
    ∧ m1.seed_id = "Mixed_" ++ gid1 ∧ m2.seed_id = "Mixed_" ++ gid2
    ∧ m1.created = ts1 ∧ m2.created = ts2 := by
  obtain ⟨hg1, hs1, hc1, hp1, hr1, he1, hmix1, hid1, hts1⟩ := mixPersonalities_ok_inv h1
  obtain ⟨hg2, hs2, hc2, hp2, hr2, he2, hmix2, hid2, hts2⟩ := mixPersonalities_ok_inv h2
  refine ⟨?_, ?_, ?_, ?_, ?_, ?_, ?_, hid1, hid2, hts1, hts2⟩
  · exact Except.ok.inj (hg1.symm.trans hg2)
  · exact Except.ok.inj (hs1.symm.trans hs2)
  · exact fun k => Except.ok.inj ((hc1 k).symm.trans (hc2 k))
  · exact fun k => Except.ok.inj ((hp1 k).symm.trans (hp2 k))
  · exact Except.ok.inj (hr1.symm.trans hr2)
  · rw [hmix1, hmix2]
  · exact Except.ok.inj (he1.symm.trans he2)

/-- Witness for C9: two concrete mixes differing only in id and timestamp
agree on goal statement and persona style. -/
theorem claim_C9_witness :
    ∃ m1 m2,
      mixPersonalities basePersonalities [("scientist", 1)] (some "g") "id1" "t1"
          = Except.ok m1
      ∧ mixPersonalities basePersonalities [("scientist", 1)] (some "g") "id2" "t2"
          = Except.ok m2
      ∧ m1.goal_statement = m2.goal_statement
      ∧ m1.persona_style = m2.persona_style := by
  obtain ⟨m1, hm1⟩ : ∃ m,
      mixPersonalities basePersonalities [("scientist", 1)] (some "g") "id1" "t1"
        = Except.ok m := by
    unfold mixPersonalities
    rw [if_neg (by
      norm_num [List.map_cons, List.map_nil, List.sum_cons, List.sum_nil, abs_zero])]
    exact ⟨_, rfl⟩
  obtain ⟨m2, hm2⟩ : ∃ m,
      mixPersonalities basePersonalities [("scientist", 1)] (some "g") "id2" "t2"
        = Except.ok m := by
    unfold mixPersonalities
    rw [if_neg (by
      norm_num [List.map_cons, List.map_nil, List.sum_cons, List.sum_nil, abs_zero])]
    exact ⟨_, rfl⟩
  have h := claim_C9 basePersonalities [("scientist", 1)] (some "g")
    "id1" "t1" "id2" "t2" m1 m2 hm1 hm2
  exact ⟨m1, m2, hm1, hm2, h.1, h.2.1⟩

/-! ## Claim C2: retrieval ranking, threshold and reinforcement -/

/-- The specification of one `retrieve_memories` call against the
pre-call store state:
the result list has at most `limit` entries, is sorted descending by
relevance score, contains only records of stored nodes whose
pre-reinforcement strength is at least the cleanup threshold, each scored
as pre-reinforcement strength plus the type bonus plus 0.3 × context
similarity; and the post-call store reinforces via `access()` exactly the
returned nodes, touching nothing else. -/
def RetrieveSpec (s : EnhancedMemorySystem) (query_type : Option String)
    (anchor_context : List (String × ℚ)) (limit : ℕ) (now : ℚ) : Prop :=
  (s.retrieveMemories query_type anchor_context limit now).1.length ≤ limit
  ∧ (s.retrieveMemories query_type anchor_context limit now).1.Pairwise
      (fun r r' => r'.relevance_score ≤ r.relevance_score)
  ∧ (∀ r ∈ (s.retrieveMemories query_type anchor_context limit now).1,
      ∃ p ∈ s.memories,
        s.cleanup_threshold ≤ p.2.getCurrentStrength now
        ∧ r.relevance_score
            = p.2.getCurrentStrength now
              + (match query_type with
                 | some q => if q ≠ "" ∧ p.2.memory_type = q then 0.2 else 0
                 | none => 0)
              + (if anchor_context ≠ [] ∧ p.2.anchor_context ≠ [] then
                   calculateAnchorSimilarity anchor_context p.2.anchor_context * 0.3
                 else 0)
        ∧ r = (p.2.access now).toDict now r.relevance_score)
  ∧ (∀ k : ℕ,
      (s.retrieveMemories query_type anchor_context limit now).2.memories.lookup k
        = (s.memories.lookup k).map (fun n =>
            if k ∈ (s.retrieveMemories query_type anchor_context limit now).1.map
                (fun r => r.id) then n.access now else n))
  ∧ (s.retrieveMemories query_type anchor_context limit now).2.memory_clusters
      = s.memory_clusters
  ∧ (s.retrieveMemories query_type anchor_context limit now).2.cleanup_threshold
      = s.cleanup_threshold
  ∧ (s.retrieveMemories query_type anchor_context limit now).2.max_memories
      = s.max_memories

/-- C2: every `retrieve_memories` call on a store whose nodes are keyed by
their own id satisfies `RetrieveSpec`: threshold filtering, scoring from
the pre-reinforcement state, descending order, the limit, and
reinforcement of exactly the returned nodes after scoring. -/
theorem claim_C2 (s : EnhancedMemorySystem) (query_type : Option String)
    (anchor_context : List (String × ℚ)) (limit : ℕ) (now : ℚ)
    (hkeys : ∀ p ∈ s.memories, p.2.id = p.1) :
    RetrieveSpec s query_type anchor_context limit now := by
  have hdef : s.retrieveMemories query_type anchor_context limit now
      = (((((s.memories.filterMap (fun p =>
            if p.2.getCurrentStrength now < s.cleanup_threshold then none
            else some (memoryScore query_type anchor_context now p.2, p.1, p.2))).mergeSort
              (fun a b => decide (b.1 ≤ a.1))).take limit).map
                (fun c => (c.2.2.access now).toDict now c.1)),
         { s with memories := s.memories.map (fun p =>
            if p.1 ∈ ((((s.memories.filterMap (fun p =>
                if p.2.getCurrentStrength now < s.cleanup_threshold then none
                else some (memoryScore query_type anchor_context now p.2, p.1, p.2))).mergeSort
                  (fun a b => decide (b.1 ≤ a.1))).take limit).map (fun c => c.2.1))
            then (p.1, p.2.access now) else p) }) := rfl
  set F : ℕ × MemoryNode → Option (ℚ × ℕ × MemoryNode) := fun p =>
    if p.2.getCurrentStrength now < s.cleanup_threshold then none
    else some (memoryScore query_type anchor_context now p.2, p.1, p.2) with hF
  set le : (ℚ × ℕ × MemoryNode) → (ℚ × ℕ × MemoryNode) → Bool :=
    fun a b => decide (b.1 ≤ a.1) with hle
  have hmem_top : ∀ c ∈ ((s.memories.filterMap F).mergeSort le).take limit,
      ∃ p ∈ s.memories, F p = some c := by
    intro c hc
    have hc1 : c ∈ (s.memories.filterMap F).mergeSort le :=
      List.mem_of_mem_take hc
    have hc2 : c ∈ s.memories.filterMap F :=
      (List.mergeSort_perm (s.memories.filterMap F) le).mem_iff.mp hc1
    exact List.mem_filterMap.mp hc2
  have hF_inv : ∀ (p : ℕ × MemoryNode) (c : ℚ × ℕ × MemoryNode), F p = some c →
      ¬ p.2.getCurrentStrength now < s.cleanup_threshold
      ∧ c = (memoryScore query_type anchor_context now p.2, p.1, p.2) := by
    intro p c hpc
    rw [hF] at hpc
    have hpc' : (if p.2.getCurrentStrength now < s.cleanup_threshold then none
        else some (memoryScore query_type anchor_context now p.2, p.1, p.2)) = some c := hpc
    by_cases hlt : p.2.getCurrentStrength now < s.cleanup_threshold
    · rw [if_pos hlt] at hpc'
      exact Option.noConfusion hpc'
    · rw [if_neg hlt] at hpc'
      exact ⟨hlt, (Option.some.inj hpc').symm⟩
  refine ⟨?_, ?_, ?_, ?_, ?_, ?_, ?_⟩
  · rw [hdef]
    simp only [List.length_map, List.length_take]
    exact min_le_left _ _
  · rw [hdef]
    rw [List.pairwise_map]
    have hsorted : ((s.memories.filterMap F).mergeSort le).Pairwise
        (fun a b => le a b = true) := by
      apply List.sorted_mergeSort
      · intro a b c hab hbc
        simp only [hle, decide_eq_true_eq] at hab hbc ⊢
        exact le_trans hbc hab
      · intro a b
        simp only [hle, Bool.or_eq_true, decide_eq_true_eq]
        exact le_total b.1 a.1
    have htake := hsorted.sublist (List.take_sublist limit _)
    refine htake.imp ?_
    intro a b hab
    simp only [hle, decide_eq_true_eq] at hab
    exact hab
  · rw [hdef]
    intro r hr
    obtain ⟨c, hc, hGc⟩ := List.mem_map.mp hr
    obtain ⟨p, hp, hFp⟩ := hmem_top c hc
    obtain ⟨hstrong, hc_eq⟩ := hF_inv p c hFp
    refine ⟨p, hp, not_lt.mp hstrong, ?_, ?_⟩
    · rw [← hGc, hc_eq]
      rfl
    · rw [← hGc, hc_eq]
      rfl
  · intro k
    rw [hdef]
    dsimp only
    have hids : ((((s.memories.filterMap F).mergeSort le).take limit).map
          (fun c => (c.2.2.access now).toDict now c.1)).map (fun r => r.id)
        = (((s.memories.filterMap F).mergeSort le).take limit).map (fun c => c.2.1) := by
      rw [List.map_map]
      apply List.map_congr_left
      intro c hc
      obtain ⟨p, hp, hFp⟩ := hmem_top c hc
      obtain ⟨-, hc_eq⟩ := hF_inv p c hFp
      have hcid : c.2.2.id = c.2.1 := by
        rw [hc_eq]
        exact hkeys p hp
      exact hcid
    rw [hids]
    exact lookup_map_memModify s.memories _ (fun n => n.access now) k
  · rw [hdef]
  · rw [hdef]
  · rw [hdef]

/-- Witness for C2 at a concrete one-node store. -/
theorem claim_C2_witness :
    (∀ p ∈ (EnhancedMemorySystem.mk 1000 0.1
        [(1, MemoryNode.init 1 "met user" "interaction" 0.5 [] 0)]
        [("interaction", [1])]).memories, p.2.id = p.1)
    ∧ RetrieveSpec (EnhancedMemorySystem.mk 1000 0.1
        [(1, MemoryNode.init 1 "met user" "interaction" 0.5 [] 0)]
        [("interaction", [1])]) (some "interaction") [("Fear", 0.5)] 10 0 :=
  ⟨by decide,
   claim_C2 (EnhancedMemorySystem.mk 1000 0.1
      [(1, MemoryNode.init 1 "met user" "interaction" 0.5 [] 0)]
      [("interaction", [1])]) (some "interaction") [("Fear", 0.5)] 10 0 (by decide)⟩

/-! ## Claim C8: index consistency across operation sequences -/

/-- The public operations of `EnhancedMemorySystem`. -/
inductive MemOp
  | store (id : ℕ) (content : String) (memory_type : String)
      (importance : ℚ) (anchor_context : List (String × ℚ)) (now : ℚ)
  | retrieve (query_type : Option String) (anchor_context : List (String × ℚ))
      (limit : ℕ) (now : ℚ)
  | cleanup (now : ℚ)

/-- Run one operation for its state effect. -/
def runOp (s : EnhancedMemorySystem) : MemOp → EnhancedMemorySystem
  | .store id content memory_type importance ctx now =>
      (s.storeMemory id content memory_type importance ctx now).2
  | .retrieve query_type ctx limit now => (s.retrieveMemories query_type ctx limit now).2
  | .cleanup now => s.cleanupWeakMemories now

/-- Run a sequence of operations. -/
def runOps (s : EnhancedMemorySystem) (ops : List MemOp) : EnhancedMemorySystem :=
  ops.foldl runOp s

/-- Every store in the sequence uses an id not currently in the main dict
(the claim's "each stored node having a unique id"; `mem_{ms}` collides when
two stores land in one millisecond, so uniqueness is a premise here). -/
def FreshRun : EnhancedMemorySystem → List MemOp → Prop
  | _, [] => True
  | s, op :: ops =>
      (match op with
       | .store id _ _ _ _ _ => s.memories.lookup id = none
       | _ => True) ∧ FreshRun (runOp s op) ops

/-- The claim-level invariant: every id in the type index exists in the main
mapping, every id in the main mapping appears in the index list of its
node's type, and ids are pairwise distinct. -/
def IndexConsistent (s : EnhancedMemorySystem) : Prop :=
  (∀ t ∈ s.memory_clusters, ∀ id ∈ t.2, (s.memories.lookup id).isSome = true)
  ∧ (∀ q ∈ s.memories, q.1 ∈ (s.memory_clusters.lookup q.2.memory_type).getD [])
  ∧ (s.memories.map Prod.fst).Nodup

/-- The inductive invariant: distinct memory keys, distinct cluster keys,
duplicate-free cluster lists, every indexed id mapped to a node of the
indexing type, and every mapped id indexed under its node's type. -/
def StrongInv (s : EnhancedMemorySystem) : Prop :=
  (s.memories.map Prod.fst).Nodup
  ∧ (s.memory_clusters.map Prod.fst).Nodup
  ∧ (∀ t ∈ s.memory_clusters, t.2.Nodup)
  ∧ (∀ t ∈ s.memory_clusters, ∀ id ∈ t.2,
      (s.memories.lookup id).map MemoryNode.memory_type = some t.1)
  ∧ (∀ q ∈ s.memories, q.1 ∈ (s.memory_clusters.lookup q.2.memory_type).getD [])

theorem strongInv_empty (max_memories : ℕ) (cleanup_threshold : ℚ) :
    StrongInv (EnhancedMemorySystem.empty max_memories cleanup_threshold) := by
  refine ⟨List.nodup_nil, List.nodup_nil, ?_, ?_, ?_⟩ <;> intro t ht <;>
    simp [EnhancedMemorySystem.empty] at ht

theorem indexConsistent_of_strongInv {s : EnhancedMemorySystem}
    (h : StrongInv s) : IndexConsistent s := by
  obtain ⟨hk, -, -, hd1, hd2⟩ := h
  refine ⟨?_, hd2, hk⟩
  intro t ht id hid
  have := hd1 t ht id hid
  cases hl : s.memories.lookup id with
  | none => rw [hl] at this; exact Option.noConfusion this
  | some n => rfl

/-! ### More association-list lemmas for C8 -/

theorem lookup_isSome_of_mem_keys {α β : Type} [BEq α] [LawfulBEq α]
    {l : List (α × β)} {k : α} (h : k ∈ l.map Prod.fst) : (l.lookup k).isSome := by
  induction l with
  | nil => simp at h
  | cons p tl ih =>
    rcases p with ⟨pk, pv⟩
    rw [List.map_cons] at h
    by_cases hk : k = pk
    · subst hk
      simp [List.lookup_cons]
    · have h1 : (k == pk) = false := beq_eq_false_iff_ne.mpr hk
      rw [List.lookup_cons, h1]
      rcases List.mem_cons.mp h with h2 | h2
      · exact absurd h2 hk
      · exact ih h2

theorem keys_map_memModify {β : Type} (l : List (ℕ × β)) (ids : List ℕ)
    (g : β → β) :
    (l.map (fun p => if p.1 ∈ ids then (p.1, g p.2) else p)).map Prod.fst
      = l.map Prod.fst := by
  rw [List.map_map]
  apply List.map_congr_left
  intro p _
  by_cases h : p.1 ∈ ids <;> simp [h]

theorem keys_map_modify {α β : Type} [DecidableEq α] (l : List (α × β)) (t : α)
    (f : β → β) :
    (l.map (fun p => if p.1 = t then (p.1, f p.2) else p)).map Prod.fst
      = l.map Prod.fst := by
  rw [List.map_map]
  apply List.map_congr_left
  intro p _
  by_cases h : p.1 = t <;> simp [h]

theorem lookup_filter_key_ne {β : Type} {l : List (ℕ × β)} {mid k : ℕ}
    (h : k ≠ mid) :
    (l.filter (fun p => p.1 != mid)).lookup k = l.lookup k := by
  induction l with
  | nil => simp
  | cons p tl ih =>
    rcases p with ⟨pk, pv⟩
    by_cases hp : pk = mid
    · subst hp
      have h1 : (k == pk) = false := beq_eq_false_iff_ne.mpr h
      simp [List.filter_cons, List.lookup_cons, h1, ih]
    · have h2 : (pk != mid) = true := by simp [bne_iff_ne, hp]
      by_cases hbeq : k = pk
      · subst hbeq
        simp [List.filter_cons, h2, List.lookup_cons]
      · have h3 : (k == pk) = false := beq_eq_false_iff_ne.mpr hbeq
        simp [List.filter_cons, h2, List.lookup_cons, h3, ih]

theorem lookup_filter_key_self {β : Type} (l : List (ℕ × β)) (mid : ℕ) :
    (l.filter (fun p => p.1 != mid)).lookup mid = none := by
  induction l with
  | nil => simp
  | cons p tl ih =>
    rcases p with ⟨pk, pv⟩
    by_cases hp : pk = mid
    · subst hp
      simp [List.filter_cons, ih]
    · have h2 : (pk != mid) = true := by simp [bne_iff_ne, hp]
      have h3 : (mid == pk) = false := beq_eq_false_iff_ne.mpr (fun hh => hp hh.symm)
      simp [List.filter_cons, h2, List.lookup_cons, h3, ih]

/-- Specialization of `lookup_map_modify` to the cluster-erase shape of
`cleanupStep` (stated so the rewrite pattern is first order). -/
theorem lookup_clusters_erase (cl : List (String × List ℕ)) (t0 : String)
    (mid : ℕ) (k : String) :
    (cl.map (fun p => if p.1 = t0 then (p.1, p.2.erase mid) else p)).lookup k
      = if k = t0 then (cl.lookup t0).map (fun ids => ids.erase mid)
        else cl.lookup k :=
  lookup_map_modify cl t0 (fun ids => ids.erase mid) k

/-- Specialization of `lookup_map_modify` to the cluster-append shape of
`store_memory`. -/
theorem lookup_clusters_append (cl : List (String × List ℕ)) (t0 : String)
    (nid : ℕ) (k : String) :
    (cl.map (fun p => if p.1 = t0 then (p.1, p.2 ++ [nid]) else p)).lookup k
      = if k = t0 then (cl.lookup t0).map (fun ids => ids ++ [nid])
        else cl.lookup k :=
  lookup_map_modify cl t0 (fun ids => ids ++ [nid]) k

/-- Specialization of `keys_map_modify` to the cluster-erase shape. -/
theorem keys_clusters_erase (cl : List (String × List ℕ)) (t0 : String)
    (mid : ℕ) :
    ((cl.map (fun p => if p.1 = t0 then (p.1, p.2.erase mid) else p)).map
        Prod.fst) = cl.map Prod.fst :=
  keys_map_modify cl t0 (fun ids => ids.erase mid)

/-- Specialization of `keys_map_modify` to the cluster-append shape. -/
theorem keys_clusters_append (cl : List (String × List ℕ)) (t0 : String)
    (nid : ℕ) :
    ((cl.map (fun p => if p.1 = t0 then (p.1, p.2 ++ [nid]) else p)).map
        Prod.fst) = cl.map Prod.fst :=
  keys_map_modify cl t0 (fun ids => ids ++ [nid])

/-- Pointwise reinforcement of some nodes (the retrieval side effect)
preserves the strong invariant, for any type-preserving node update. -/
theorem strongInv_memModify {s : EnhancedMemorySystem} (hs : StrongInv s)
    (ids : List ℕ) (g : MemoryNode → MemoryNode)
    (hg : ∀ n, (g n).memory_type = n.memory_type) :
    StrongInv { s with memories := (s.memories.map (fun p => if p.1 ∈ ids then (p.1, g p.2) else p)) } := by
  obtain ⟨hk, hck, hcl, hd1, hd2⟩ := hs
  refine ⟨?_, hck, hcl, ?_, ?_⟩
  · rw [keys_map_memModify]
    exact hk
  · intro t ht id hid
    have hbase := hd1 t ht id hid
    rw [lookup_map_memModify]
    cases hl : s.memories.lookup id with
    | none => rw [hl] at hbase; exact Option.noConfusion hbase
    | some n =>
      rw [hl] at hbase
      simp only [Option.map_some'] at hbase ⊢
      by_cases hmem : id ∈ ids
      · simp only [if_pos hmem, hg]
        exact hbase
      · simp only [if_neg hmem]
        exact hbase
  · intro q hq
    obtain ⟨p, hp, hpq⟩ := List.mem_map.mp hq
    by_cases hmem : p.1 ∈ ids
    · rw [if_pos hmem] at hpq
      rw [← hpq]
      show p.1 ∈ (s.memory_clusters.lookup (g p.2).memory_type).getD []
      rw [hg]
      exact hd2 p hp
    · rw [if_neg hmem] at hpq
      rw [← hpq]
      exact hd2 p hp

/-- `retrieve_memories` preserves the strong invariant. -/
theorem strongInv_retrieve {s : EnhancedMemorySystem} (hs : StrongInv s)
    (query_type : Option String) (anchor_context : List (String × ℚ))
    (limit : ℕ) (now : ℚ) :
    StrongInv (s.retrieveMemories query_type anchor_context limit now).2 :=
  strongInv_memModify hs _ (fun n => n.access now) (fun _ => rfl)

/-- One removal step of `_cleanup_weak_memories` preserves the strong
invariant. -/
theorem strongInv_cleanupStep {s : EnhancedMemorySystem} (hs : StrongInv s)
    (mid : ℕ) : StrongInv (cleanupStep s mid) := by
  obtain ⟨hk, hck, hcl, hd1, hd2⟩ := hs
  unfold cleanupStep
  split
  · exact ⟨hk, hck, hcl, hd1, hd2⟩
  · rename_i memory hl
    refine ⟨?_, ?_, ?_, ?_, ?_⟩
    · exact hk.sublist ((List.filter_sublist _).map Prod.fst)
    · rw [keys_clusters_erase]
      exact hck
    · intro t ht
      obtain ⟨t0, ht0, hteq⟩ := List.mem_map.mp ht
      by_cases hcase : t0.1 = memory.memory_type
      · rw [if_pos hcase] at hteq
        rw [← hteq]
        exact (hcl t0 ht0).erase mid
      · rw [if_neg hcase] at hteq
        rw [← hteq]
        exact hcl t0 ht0
    · intro t ht id hid
      obtain ⟨t0, ht0, hteq⟩ := List.mem_map.mp ht
      by_cases hcase : t0.1 = memory.memory_type
      · rw [if_pos hcase] at hteq
        rw [← hteq] at hid ⊢
        have hid' : id ≠ mid ∧ id ∈ t0.2 := (hcl t0 ht0).mem_erase_iff.mp hid
        rw [lookup_filter_key_ne hid'.1]
        exact hd1 t0 ht0 id hid'.2
      · rw [if_neg hcase] at hteq
        rw [← hteq] at hid ⊢
        have hne : id ≠ mid := by
          intro hh
          subst hh
          have hbase := hd1 t0 ht0 id hid
          rw [hl] at hbase
          exact hcase (Option.some.inj hbase).symm
        rw [lookup_filter_key_ne hne]
        exact hd1 t0 ht0 id hid
    · intro q hq
      have hq' : q ∈ s.memories := List.mem_of_mem_filter hq
      have hqne : q.1 ≠ mid := by
        have := List.of_mem_filter hq
        simpa [bne_iff_ne] using this
      have hold := hd2 q hq'
      rw [lookup_clusters_erase]
      by_cases hcase : q.2.memory_type = memory.memory_type
      · rw [if_pos hcase]
        rw [hcase] at hold
        cases hcc : s.memory_clusters.lookup memory.memory_type with
        | none =>
          rw [hcc] at hold
          simp at hold
        | some ids =>
          rw [hcc] at hold
          simp only [Option.getD_some] at hold
          simp only [Option.map_some', Option.getD_some]
          exact (List.mem_erase_of_ne hqne).mpr hold
      · rw [if_neg hcase]
        exact hold

/-- `_cleanup_weak_memories` preserves the strong invariant. -/
theorem strongInv_cleanup {s : EnhancedMemorySystem} (hs : StrongInv s)
    (now : ℚ) : StrongInv (s.cleanupWeakMemories now) := by
  unfold EnhancedMemorySystem.cleanupWeakMemories
  have hfold : ∀ (ids : List ℕ) (s0 : EnhancedMemorySystem), StrongInv s0 →
      StrongInv (ids.foldl cleanupStep s0) := by
    intro ids
    induction ids with
    | nil => exact fun s0 hs0 => hs0
    | cons i tl ih =>
      intro s0 hs0
      rw [List.foldl_cons]
      exact ih _ (strongInv_cleanupStep hs0 i)
  exact hfold _ s hs

/-- `store_memory` with a fresh id preserves the strong invariant. -/
theorem strongInv_store {s : EnhancedMemorySystem} (hs : StrongInv s)
    (id : ℕ) (content memory_type : String) (importance : ℚ)
    (ctx : List (String × ℚ)) (now : ℚ)
    (hfresh : s.memories.lookup id = none) :
    StrongInv (s.storeMemory id content memory_type importance ctx now).2 := by
  obtain ⟨hk, hck, hcl, hd1, hd2⟩ := hs
  set NODE := MemoryNode.init id content memory_type importance ctx now with hN
  set CL0 := (if (s.memory_clusters.lookup memory_type).isSome then s.memory_clusters
              else s.memory_clusters ++ [(memory_type, [])]) with hCL0
  set CL' := CL0.map (fun p => if p.1 = memory_type then (p.1, p.2 ++ [id]) else p)
    with hCL
  have hA : dictSet s.memories id NODE = s.memories ++ [(id, NODE)] := by
    unfold dictSet
    rw [hfresh]
    simp
  have hdef : (s.storeMemory id content memory_type importance ctx now).2
      = if (dictSet s.memories id NODE).length > s.max_memories
        then EnhancedMemorySystem.cleanupWeakMemories
          { s with memories := dictSet s.memories id NODE, memory_clusters := CL' } now
        else { s with memories := dictSet s.memories id NODE, memory_clusters := CL' } := rfl
  rw [hdef, hA]
  have hid_not : id ∉ s.memories.map Prod.fst := by
    intro hmem
    have h2 := lookup_isSome_of_mem_keys hmem
    rw [hfresh] at h2
    simp at h2
  have hid_cl : ∀ t ∈ s.memory_clusters, id ∉ t.2 := by
    intro t ht hidt
    have h2 := hd1 t ht id hidt
    rw [hfresh] at h2
    exact Option.noConfusion h2
  have hmem0 : ∀ t ∈ CL0, t ∈ s.memory_clusters ∨ t = (memory_type, ([] : List ℕ)) := by
    rw [hCL0]
    split
    · exact fun t ht => Or.inl ht
    · intro t ht
      rcases List.mem_append.mp ht with h | h
      · exact Or.inl h
      · exact Or.inr (List.mem_singleton.mp h)
  have hck0 : (CL0.map Prod.fst).Nodup := by
    rw [hCL0]
    split
    · exact hck
    · rename_i hb
      rw [List.map_append, List.nodup_append]
      refine ⟨hck, List.nodup_singleton _, ?_⟩
      intro a ha hb2
      simp only [List.map_cons, List.map_nil, List.mem_singleton] at hb2
      subst hb2
      exact hb (lookup_isSome_of_mem_keys ha)
  have hcl0 : ∀ t ∈ CL0, t.2.Nodup := by
    intro t ht
    rcases hmem0 t ht with h | h
    · exact hcl t h
    · rw [h]
      exact List.nodup_nil
  have hd1_0 : ∀ t ∈ CL0, ∀ i ∈ t.2,
      (s.memories.lookup i).map MemoryNode.memory_type = some t.1 := by
    intro t ht i hi
    rcases hmem0 t ht with h | h
    · exact hd1 t h i hi
    · rw [h] at hi
      simp at hi
  have hid_cl0 : ∀ t ∈ CL0, id ∉ t.2 := by
    intro t ht
    rcases hmem0 t ht with h | h
    · exact hid_cl t h
    · rw [h]
      simp
  have hlook0_self : (CL0.lookup memory_type).isSome := by
    rw [hCL0]
    split
    · rename_i hb
      exact hb
    · rename_i hb
      rw [List.lookup_append, Option.not_isSome_iff_eq_none.mp hb]
      simp [List.lookup_cons]
  have hlook0_other : ∀ t', t' ≠ memory_type →
      CL0.lookup t' = s.memory_clusters.lookup t' := by
    intro t' hne
    rw [hCL0]
    split
    · rfl
    · rw [List.lookup_append]
      have h1 : (t' == memory_type) = false := beq_eq_false_iff_ne.mpr hne
      simp [List.lookup_cons, h1]
  have hd2_0 : ∀ q ∈ s.memories, q.1 ∈ (CL0.lookup q.2.memory_type).getD [] := by
    intro q hq
    by_cases hqt : q.2.memory_type = memory_type
    · cases hcc : s.memory_clusters.lookup q.2.memory_type with
      | none =>
        have h2 := hd2 q hq
        rw [hcc] at h2
        simp at h2
      | some ids =>
        have hcl0q : CL0.lookup q.2.memory_type = some ids := by
          rw [hCL0]
          split
          · exact hcc
          · rename_i hb
            rw [hqt] at hcc
            exact absurd (by rw [hcc]; rfl) hb
        rw [hcl0q]
        have h2 := hd2 q hq
        rw [hcc] at h2
        exact h2
    · rw [hlook0_other q.2.memory_type hqt]
      exact hd2 q hq
  have hcore : StrongInv
      { s with memories := s.memories ++ [(id, NODE)], memory_clusters := CL' } := by
    refine ⟨?_, ?_, ?_, ?_, ?_⟩
    · show ((s.memories ++ [(id, NODE)]).map Prod.fst).Nodup
      rw [List.map_append, List.nodup_append]
      refine ⟨hk, List.nodup_singleton _, ?_⟩
      intro a ha hb2
      simp only [List.map_cons, List.map_nil, List.mem_singleton] at hb2
      subst hb2
      exact hid_not ha
    · show (CL'.map Prod.fst).Nodup
      rw [hCL, keys_clusters_append]
      exact hck0
    · show ∀ t ∈ CL', t.2.Nodup
      intro t ht
      rw [hCL] at ht
      obtain ⟨t0, ht0, hteq⟩ := List.mem_map.mp ht
      by_cases hcase : t0.1 = memory_type
      · rw [if_pos hcase] at hteq
        rw [← hteq]
        show (t0.2 ++ [id]).Nodup
        rw [List.nodup_append]
        refine ⟨hcl0 t0 ht0, List.nodup_singleton _, ?_⟩
        intro a ha hb2
        rw [List.mem_singleton] at hb2
        subst hb2
        exact hid_cl0 t0 ht0 ha
      · rw [if_neg hcase] at hteq
        rw [← hteq]
        exact hcl0 t0 ht0
    · show ∀ t ∈ CL', ∀ i ∈ t.2,
        ((s.memories ++ [(id, NODE)]).lookup i).map MemoryNode.memory_type = some t.1
      intro t ht i hi
      rw [hCL] at ht
      obtain ⟨t0, ht0, hteq⟩ := List.mem_map.mp ht
      by_cases hcase : t0.1 = memory_type
      · rw [if_pos hcase] at hteq
        rw [← hteq] at hi ⊢
        rcases List.mem_append.mp hi with hi' | hi'
        · have hine : i ≠ id := by
            intro hh
            subst hh
            exact hid_cl0 t0 ht0 hi'
          have hbase := hd1_0 t0 ht0 i hi'
          cases hli : s.memories.lookup i with
          | none => rw [hli] at hbase; exact Option.noConfusion hbase
          | some n =>
            rw [hli] at hbase
            rw [List.lookup_append, hli]
            exact hbase
        · rw [List.mem_singleton] at hi'
          subst hi'
          rw [List.lookup_append, hfresh]
          simp [List.lookup_cons, hN, MemoryNode.init, hcase]
      · rw [if_neg hcase] at hteq
        rw [← hteq] at hi ⊢
        have hine : i ≠ id := by
          intro hh
          subst hh
          exact hid_cl0 t0 ht0 hi
        have hbase := hd1_0 t0 ht0 i hi
        cases hli : s.memories.lookup i with
        | none => rw [hli] at hbase; exact Option.noConfusion hbase
        | some n =>
          rw [hli] at hbase
          rw [List.lookup_append, hli]
          exact hbase
    · show ∀ q ∈ s.memories ++ [(id, NODE)], q.1 ∈ (CL'.lookup q.2.memory_type).getD []
      intro q hq
      rcases List.mem_append.mp hq with hq' | hq'
      · have hq2 := hd2_0 q hq'
        rw [hCL, lookup_clusters_append]
        by_cases hqt : q.2.memory_type = memory_type
        · rw [if_pos hqt]
          rw [hqt] at hq2
          cases hcc : CL0.lookup memory_type with
          | none =>
            rw [hcc] at hq2
            simp at hq2
          | some ids =>
            rw [hcc] at hq2
            simp only [Option.getD_some] at hq2
            simp only [Option.map_some', Option.getD_some]
            exact List.mem_append_left _ hq2
        · rw [if_neg hqt]
          exact hq2
      · rw [List.mem_singleton] at hq'
        subst hq'
        show id ∈ (CL'.lookup NODE.memory_type).getD []
        have hNt : NODE.memory_type = memory_type := rfl
        rw [hNt, hCL, lookup_clusters_append, if_pos rfl]
        obtain ⟨ids, hids⟩ := Option.isSome_iff_exists.mp hlook0_self
        rw [hids]
        simp only [Option.map_some', Option.getD_some]
        exact List.mem_append_right _ (List.mem_singleton.mpr rfl)
  split
  · exact strongInv_cleanup hcore now
  · exact hcore

/-- A single operation with a fresh store id preserves the strong invariant. -/
theorem strongInv_runOp {s : EnhancedMemorySystem} (hs : StrongInv s) (op : MemOp)
    (hop : match op with
           | .store id _ _ _ _ _ => s.memories.lookup id = none
           | _ => True) :
    StrongInv (runOp s op) := by
  cases op with
  | store id content memory_type importance ctx now =>
    exact strongInv_store hs id content memory_type importance ctx now hop
  | retrieve query_type ctx limit now => exact strongInv_retrieve hs query_type ctx limit now
  | cleanup now => exact strongInv_cleanup hs now

theorem strongInv_runOps : ∀ (ops : List MemOp) (s : EnhancedMemorySystem),
    StrongInv s → FreshRun s ops → StrongInv (runOps s ops) := by
  intro ops
  induction ops with
  | nil => exact fun s hs _ => hs
  | cons op tl ih =>
    intro s hs hfr
    obtain ⟨h1, h2⟩ := hfr
    rw [runOps, List.foldl_cons]
    exact ih _ (strongInv_runOp hs op h1) h2

/-- C8: starting from an empty store, after any sequence of store, retrieve
and cleanup operations whose stored ids are fresh (the claim's unique-id
premise), the two indices are consistent: every id in the type index exists
in the main mapping, every id in the main mapping appears in the index list
of its node's type, and the stored ids are pairwise distinct. -/
theorem claim_C8 (max_memories : ℕ) (cleanup_threshold : ℚ) (ops : List MemOp)
    (hfresh : FreshRun (EnhancedMemorySystem.empty max_memories cleanup_threshold) ops) :
    IndexConsistent
      (runOps (EnhancedMemorySystem.empty max_memories cleanup_threshold) ops) :=
  indexConsistent_of_strongInv
    (strongInv_runOps ops _ (strongInv_empty max_memories cleanup_threshold) hfresh)

/-- Witness for C8 on a concrete operation sequence. -/
theorem claim_C8_witness :
    FreshRun (EnhancedMemorySystem.empty 1000 0.1)
      [MemOp.store 1 "hello" "interaction" 0.5 [] 0,
       MemOp.store 2 "alert" "crisis" 0.9 [] 0,
       MemOp.retrieve (some "crisis") [] 10 0,
       MemOp.cleanup 1]
    ∧ IndexConsistent (runOps (EnhancedMemorySystem.empty 1000 0.1)
      [MemOp.store 1 "hello" "interaction" 0.5 [] 0,
       MemOp.store 2 "alert" "crisis" 0.9 [] 0,
       MemOp.retrieve (some "crisis") [] 10 0,
       MemOp.cleanup 1]) := by
  have hfr : FreshRun (EnhancedMemorySystem.empty 1000 0.1)
      [MemOp.store 1 "hello" "interaction" 0.5 [] 0,
       MemOp.store 2 "alert" "crisis" 0.9 [] 0,
       MemOp.retrieve (some "crisis") [] 10 0,
       MemOp.cleanup 1] := ⟨rfl, rfl, trivial, trivial, trivial⟩
  exact ⟨hfr, claim_C8 1000 0.1 _ hfr⟩

end AnchorLab
